import Mathlib

/-!
# Verification of the wireguard-domain-tunnel routing engine

A shallow embedding, in Lean 4, of the routing-engine modules of the
`wireguard-domain-tunnel` repository:

* `src/main/domain-matcher.ts` — rule storage and wildcard matching,
* `src/main/conflict-detector.ts` — IP/domain mapping and conflict tracking,
* the DNS proxy (`DnsProxy`) — upstream forwarding and SERVFAIL synthesis,
* the route manager (`RouteManager`) — allowed-ips injection and rollback,
* `src/main/wireguard.ts` — the `addAllowedIps` adapter operation.

JavaScript `Map`s are modelled as association lists in insertion order
(`Map.set` on an existing key updates in place, otherwise appends; iteration
follows insertion order), JavaScript `Set`s as duplicate-free lists, and
`Date.now()` as an explicit `now : Nat` argument (milliseconds) threaded
through every operation that reads the clock.
-/

namespace WgTunnel

/-! ## JavaScript `Map` and `Set` models -/

/-- `Map.get`: first (unique) binding of a key, if any. -/
def mget {β : Type} : List (String × β) → String → Option β
  | [], _ => none
  | (k', v) :: rest, k => if k' = k then some v else mget rest k

/-- `Map.set`: replace in place when the key is present, append otherwise. -/
def mset {β : Type} : List (String × β) → String → β → List (String × β)
  | [], k, v => [(k, v)]
  | (k', v') :: rest, k, v =>
    if k' = k then (k', v) :: rest else (k', v') :: mset rest k v

/-- `Map.delete` (the key removal part; maps hold unique keys). -/
def mdel {β : Type} (m : List (String × β)) (k : String) : List (String × β) :=
  m.filter (fun e => ¬ (e.1 = k))

/-- `Map.has`. -/
def mhas {β : Type} (m : List (String × β)) (k : String) : Bool :=
  (mget m k).isSome

/-- `Set.add`: append when absent. -/
def sadd (s : List String) (x : String) : List String :=
  if x ∈ s then s else s ++ [x]

/-- `Set.delete`. -/
def sdel (s : List String) (x : String) : List String :=
  s.filter (fun e => ¬ (e = x))

@[simp] theorem mget_nil {β : Type} (k : String) : mget ([] : List (String × β)) k = none := rfl

theorem mget_mset_self {β : Type} (m : List (String × β)) (k : String) (v : β) :
    mget (mset m k v) k = some v := by
  induction m with
  | nil => simp [mset, mget]
  | cons e rest ih =>
    obtain ⟨k', v'⟩ := e
    by_cases h : k' = k <;> simp [mset, mget, h, ih]

theorem mget_mset_ne {β : Type} (m : List (String × β)) (k k' : String) (v : β)
    (h : k ≠ k') : mget (mset m k v) k' = mget m k' := by
  induction m with
  | nil => simp [mset, mget, h]
  | cons e rest ih =>
    obtain ⟨k₀, v₀⟩ := e
    by_cases h₀ : k₀ = k
    · subst h₀; simp [mset, mget, h]
    · simp [mset, mget, h₀, ih]

theorem mget_mdel {β : Type} (m : List (String × β)) (k k' : String) :
    mget (mdel m k) k' = if k = k' then none else mget m k' := by
  induction m with
  | nil => simp [mdel, mget]
  | cons e rest ih =>
    obtain ⟨k₀, v₀⟩ := e
    by_cases h₀ : k₀ = k
    · subst h₀
      by_cases h₁ : k₀ = k'
      · subst h₁
        simpa [mdel, mget, List.filter_cons] using ih
      · simpa [mdel, mget, List.filter_cons, h₁] using ih
    · by_cases h₁ : k₀ = k'
      · subst h₁
        have hne : ¬ (k = k₀) := fun h => h₀ h.symm
        simp [mdel, mget, List.filter_cons, h₀, hne]
      · simpa [mdel, mget, List.filter_cons, h₀, h₁] using ih

theorem mget_mdel_self {β : Type} (m : List (String × β)) (k : String) :
    mget (mdel m k) k = none := by
  simp [mget_mdel]

theorem mget_mdel_ne {β : Type} (m : List (String × β)) (k k' : String) (h : k ≠ k') :
    mget (mdel m k) k' = mget m k' := by
  simp [mget_mdel, h]

/-! ## Strings: lowercasing, trimming, splitting on dots

`toLowerCase` is modelled on ASCII letters (domain names in this system are
ASCII), `trim` on the ASCII whitespace characters, and `split('.')` /
`join('.')` with their JavaScript semantics (`"".split('.') = [""]`,
empty segments preserved). -/

/-- ASCII model of `String.prototype.toLowerCase` on a character. -/
def lowerChar (c : Char) : Char :=
  if 'A' ≤ c ∧ c ≤ 'Z' then Char.ofNat (c.toNat + 32) else c

/-- ASCII model of `String.prototype.toLowerCase`. -/
def lowerStr (s : String) : String := ⟨s.data.map lowerChar⟩

/-- ASCII whitespace, the model of the `\s` class used by `trim`. -/
def isSpaceChar (c : Char) : Bool :=
  c = ' ' || c = '\t' || c = '\n' || c = '\r'

/-- `String.prototype.trim` on a character list. -/
def trimChars (l : List Char) : List Char :=
  ((l.dropWhile isSpaceChar).reverse.dropWhile isSpaceChar).reverse

/-- `String.prototype.trim`. -/
def trimStr (s : String) : String := ⟨trimChars s.data⟩

/-- JavaScript `split('.')` on a character list. -/
def splitOnDot : List Char → List (List Char)
  | [] => [[]]
  | c :: cs =>
    if c = '.' then [] :: splitOnDot cs
    else
      match splitOnDot cs with
      | [] => [[c]]
      | h :: t => (c :: h) :: t

/-- JavaScript `join('.')` on character lists. -/
def joinDot : List (List Char) → List Char
  | [] => []
  | [x] => x
  | x :: y :: t => x ++ '.' :: joinDot (y :: t)

/-- `domain.split('.')`. -/
def splitDots (s : String) : List String := (splitOnDot s.data).map String.mk

/-- `parts.join('.')`. -/
def joinDots (l : List String) : String := ⟨joinDot (l.map String.data)⟩

theorem splitOnDot_ne_nil (l : List Char) : splitOnDot l ≠ [] := by
  cases l with
  | nil => simp [splitOnDot]
  | cons c cs =>
    by_cases h : c = '.'
    · simp [splitOnDot, h]
    · simp only [splitOnDot, h, if_false]
      cases splitOnDot cs <;> simp

/-- `join('.')` is a left inverse of `split('.')`. -/
theorem joinDot_splitOnDot (l : List Char) : joinDot (splitOnDot l) = l := by
  induction l with
  | nil => rfl
  | cons c cs ih =>
    by_cases h : c = '.'
    · subst h
      simp only [splitOnDot, if_pos rfl]
      rcases hs : splitOnDot cs with _ | ⟨h₀, t₀⟩
      · exact absurd hs (splitOnDot_ne_nil cs)
      · rw [hs] at ih
        simp [joinDot, ih]
    · simp only [splitOnDot, h, if_false]
      rcases hs : splitOnDot cs with _ | ⟨h₀, t₀⟩
      · exact absurd hs (splitOnDot_ne_nil cs)
      · rw [hs] at ih
        cases t₀ with
        | nil => simpa [joinDot] using congrArg (c :: ·) ih
        | cons y t₁ => simpa [joinDot] using congrArg (c :: ·) ih

/-! ## Domain matcher (`src/main/domain-matcher.ts`) -/

/-- A stored domain rule. -/
structure DomainRule where
  pattern : String
  tunnel : Bool
deriving DecidableEq, Repr

/-- The matcher's `rules: Map<string, DomainRule>`. -/
abbrev Rules := List (String × DomainRule)

/-- `DomainMatcher.normalizePattern`: `pattern.toLowerCase().trim()`. -/
def normalizePattern (p : String) : String := trimStr (lowerStr p)

/-- `DomainMatcher.addRule`. -/
def addRule (m : Rules) (pattern : String) (tunnel : Bool) : Rules :=
  let n := normalizePattern pattern
  mset m n ⟨n, tunnel⟩

/-- `DomainMatcher.removeRule` (new rule map, and the `delete` result). -/
def removeRule (m : Rules) (pattern : String) : Rules × Bool :=
  let n := normalizePattern pattern
  (mdel m n, mhas m n)

/-- `DomainMatcher.getRules`. -/
def getRules (m : Rules) : List DomainRule := m.map (·.2)

/-- `DomainMatcher.loadRules`: clear, then `addRule` each entry. -/
def loadRules (rules : List DomainRule) : Rules :=
  rules.foldl (fun m r => addRule m r.pattern r.tunnel) []

/-- Result shape of `DomainMatcher.match`. -/
structure MatchResult where
  matched : Bool
  tunnel : Bool
  matchedRule : Option String
deriving DecidableEq, Repr

/-- The proper tails of a list: `parts.slice(i)` for `i = 1 .. length-1`
(the range of the wildcard loop in `DomainMatcher.match`). -/
def properTails {α : Type} : List α → List (List α)
  | [] => []
  | [_] => []
  | _ :: b :: t => (b :: t) :: properTails (b :: t)

/-- The wildcard keys probed by `DomainMatcher.match`, in probe order:
`'*.' + parts.slice(i).join('.')` for `i = 1 .. parts.length-1`. -/
def wildcardCandidates (nd : String) : List String :=
  (properTails (splitDots nd)).map (fun tl => "*." ++ joinDots tl)

/-- The wildcard loop: return the rule of the first candidate key present. -/
def findWildcard (m : Rules) (cands : List String) : Option DomainRule :=
  cands.findSome? (fun c => mget m c)

/-- `DomainMatcher.match` (with `normalizedDomain = domain.toLowerCase()` inlined). -/
def matchDomain (m : Rules) (domain : String) : MatchResult :=
  match mget m (lowerStr domain) with
  | some r => ⟨true, r.tunnel, some r.pattern⟩
  | none =>
    match findWildcard m (wildcardCandidates (lowerStr domain)) with
    | some r => ⟨true, r.tunnel, some r.pattern⟩
    | none => ⟨false, false, none⟩

/-- `DomainMatcher.shouldTunnel`. -/
def shouldTunnel (m : Rules) (domain : String) : Bool :=
  (matchDomain m domain).tunnel

/-! ### Pattern validation (`DomainMatcher.isValidPattern`) -/

/-- `[a-z0-9]`. -/
def isAlnumLower (c : Char) : Bool :=
  ('a' ≤ c && c ≤ 'z') || ('0' ≤ c && c ≤ '9')

/-- `[a-z0-9-]`. -/
def isLabelChar (c : Char) : Bool := isAlnumLower c || c = '-'

/-- One label of the domain regex: `[a-z0-9]([a-z0-9-]*[a-z0-9])?`
(first and last characters alphanumeric, interior may add `-`). -/
def validLabel : List Char → Bool
  | [] => false
  | c :: cs =>
    isAlnumLower c &&
      (match cs.getLast? with
       | none => true
       | some d => isAlnumLower d) &&
      cs.all isLabelChar

/-- The full-domain regex
`^[a-z0-9]([a-z0-9-]*[a-z0-9])?(\.[a-z0-9]([a-z0-9-]*[a-z0-9])?)*$`:
every dot-separated label matches the label pattern. -/
def validDomainChars (s : String) : Bool :=
  (splitOnDot s.data).all validLabel

/-- Prefix test on character lists (`String.prototype.startsWith`). -/
def listStarts : List Char → List Char → Bool
  | _, [] => true
  | [], _ :: _ => false
  | c :: cs, d :: ds => c = d && listStarts cs ds

/-- The tail `{ valid, error? }` check of `isValidPattern`: the basic domain
regex applied to the pattern with any leading `*.` stripped. -/
def checkDomainPart (d : String) : Bool × Option String :=
  if validDomainChars d then (true, none) else (false, some "Invalid domain format")

/-- The checks of `isValidPattern` on the already-normalized pattern
(everything after the emptiness guard). -/
def validNormalized (normalized : String) : Bool × Option String :=
  if normalized.data.contains '*' then
    if ¬ listStarts normalized.data ['*', '.'] then
      (false, some "Wildcard must be at the start in the form *.domain.com")
    else if 1 < normalized.data.count '*' then
      (false, some "Only one wildcard is allowed")
    else if normalized.data.length ≤ 2 then
      (false, some "Wildcard must be followed by a domain")
    else
      checkDomainPart ⟨normalized.data.drop 2⟩
  else
    checkDomainPart normalized

/-- `DomainMatcher.isValidPattern`, as `(valid, error?)`. -/
def isValidPattern (p : String) : Bool × Option String :=
  if p.data = [] ∨ (trimStr p).data = [] then
    (false, some "Pattern cannot be empty")
  else
    validNormalized (normalizePattern p)

/-! ### Character and string lemmas -/

theorem char_eq_iff_toNat (c d : Char) : c = d ↔ c.toNat = d.toNat :=
  ⟨fun h => by rw [h], fun h => by rw [← Char.ofNat_toNat c, h, Char.ofNat_toNat]⟩

theorem toNat_ofNat_of_lt {n : Nat} (h : n < 55296) : (Char.ofNat n).toNat = n := by
  have hv : n.isValidChar := Or.inl h
  rw [Char.ofNat, dif_pos hv]
  simp [Char.ofNatAux, Char.toNat, UInt32.toNat, BitVec.toNat_ofNatLt]

theorem char_le_iff_toNat (c d : Char) : c ≤ d ↔ c.toNat ≤ d.toNat := by
  simp [Char.le_def, UInt32.le_def, BitVec.le_def, Char.toNat, UInt32.toNat]

theorem lowerChar_toNat_of_upper {c : Char} (h₁ : 65 ≤ c.toNat) (h₂ : c.toNat ≤ 90) :
    (lowerChar c).toNat = c.toNat + 32 := by
  have eA : ('A' : Char).toNat = 65 := rfl
  have eZ : ('Z' : Char).toNat = 90 := rfl
  have hA : 'A' ≤ c := (char_le_iff_toNat 'A' c).mpr (by omega)
  have hZ : c ≤ 'Z' := (char_le_iff_toNat c 'Z').mpr (by omega)
  rw [lowerChar, if_pos ⟨hA, hZ⟩]
  exact toNat_ofNat_of_lt (by omega)

theorem lowerChar_eq_self_of_not_upper {c : Char} (h : ¬ (65 ≤ c.toNat ∧ c.toNat ≤ 90)) :
    lowerChar c = c := by
  have eA : ('A' : Char).toNat = 65 := rfl
  have eZ : ('Z' : Char).toNat = 90 := rfl
  rw [lowerChar, if_neg]
  intro ⟨hA, hZ⟩
  rw [char_le_iff_toNat] at hA hZ
  exact h ⟨by omega, by omega⟩

theorem lowerChar_idem (c : Char) : lowerChar (lowerChar c) = lowerChar c := by
  by_cases h : 65 ≤ c.toNat ∧ c.toNat ≤ 90
  · have ht := lowerChar_toNat_of_upper h.1 h.2
    exact lowerChar_eq_self_of_not_upper (by omega)
  · rw [lowerChar_eq_self_of_not_upper h]
    exact lowerChar_eq_self_of_not_upper h

theorem isSpaceChar_lowerChar (c : Char) : isSpaceChar (lowerChar c) = isSpaceChar c := by
  by_cases h : 65 ≤ c.toNat ∧ c.toNat ≤ 90
  · obtain ⟨h₁, h₂⟩ := h
    have ht := lowerChar_toNat_of_upper h₁ h₂
    have e1 : (' ' : Char).toNat = 32 := rfl
    have e2 : ('\t' : Char).toNat = 9 := rfl
    have e3 : ('\n' : Char).toNat = 10 := rfl
    have e4 : ('\r' : Char).toNat = 13 := rfl
    simp only [isSpaceChar, char_eq_iff_toNat, ht, e1, e2, e3, e4]
    have d1 : ¬ (c.toNat + 32 = 32) := by omega
    have d2 : ¬ (c.toNat + 32 = 9) := by omega
    have d3 : ¬ (c.toNat + 32 = 10) := by omega
    have d4 : ¬ (c.toNat + 32 = 13) := by omega
    have d5 : ¬ (c.toNat = 32) := by omega
    have d6 : ¬ (c.toNat = 9) := by omega
    have d7 : ¬ (c.toNat = 10) := by omega
    have d8 : ¬ (c.toNat = 13) := by omega
    simp [d1, d2, d3, d4, d5, d6, d7, d8]
  · rw [lowerChar_eq_self_of_not_upper h]

@[simp] theorem data_mk (l : List Char) : (String.mk l).data = l := rfl

theorem lowerStr_idem (s : String) : lowerStr (lowerStr s) = lowerStr s := by
  simp [lowerStr, List.map_map, Function.comp_def, lowerChar_idem]

/-! ### Wildcard-candidate structure -/

theorem joinDot_cons_cons (x y : List Char) (t : List (List Char)) :
    joinDot (x :: y :: t) = x ++ '.' :: joinDot (y :: t) := rfl

theorem length_joinDot_lt (x y : List Char) (t : List (List Char)) :
    (joinDot (y :: t)).length < (joinDot (x :: y :: t)).length := by
  simp [joinDot_cons_cons]
  omega

theorem mem_properTails_length_lt (l : List (List Char)) :
    ∀ tl ∈ properTails l, (joinDot tl).length < (joinDot l).length := by
  induction l with
  | nil => simp [properTails]
  | cons a rest ih =>
    cases rest with
    | nil => simp [properTails]
    | cons b t =>
      intro tl htl
      simp only [properTails, List.mem_cons] at htl
      rcases htl with rfl | htl
      · exact length_joinDot_lt a b t
      · exact lt_trans (ih tl htl) (length_joinDot_lt a b t)

theorem properTails_pairwise (l : List (List Char)) :
    List.Pairwise (fun u v => (joinDot v).length < (joinDot u).length) (properTails l) := by
  induction l with
  | nil => simp [properTails]
  | cons a rest ih =>
    cases rest with
    | nil => simp [properTails]
    | cons b t =>
      exact List.Pairwise.cons (fun tl htl => mem_properTails_length_lt (b :: t) tl htl) ih

theorem properTails_map {α β : Type} (f : α → β) (l : List α) :
    properTails (l.map f) = (properTails l).map (fun x => x.map f) := by
  induction l with
  | nil => simp [properTails]
  | cons a rest ih =>
    cases rest with
    | nil => simp [properTails]
    | cons b t =>
      simpa [properTails] using ih

theorem wildcardCandidates_eq (nd : String) :
    wildcardCandidates nd
      = (properTails (splitOnDot nd.data)).map (fun tc => "*." ++ String.mk (joinDot tc)) := by
  unfold wildcardCandidates splitDots
  rw [properTails_map]
  simp [List.map_map, Function.comp_def, joinDots]

theorem star_dot_data : ("*." : String).data = ['*', '.'] := rfl

theorem data_append_star (s : String) : ("*." ++ s).data = '*' :: '.' :: s.data := by
  rw [String.data_append, star_dot_data]
  rfl

/-! ### `findSome?` helpers -/

theorem findSome?_congr {α β : Type} (f g : α → Option β) (l : List α)
    (h : ∀ a ∈ l, f a = g a) : l.findSome? f = l.findSome? g := by
  induction l with
  | nil => rfl
  | cons a l ih =>
    rw [List.findSome?_cons, List.findSome?_cons, h a (by simp)]
    cases g a with
    | some b => rfl
    | none => exact ih (fun x hx => h x (by simp [hx]))

theorem findSome?_append_first {α β : Type} (f : α → Option β) (pre : List α) (c : α)
    (post : List α) (b : β) (hpre : ∀ a ∈ pre, f a = none) (hc : f c = some b) :
    (pre ++ c :: post).findSome? f = some b := by
  induction pre with
  | nil => simp [List.findSome?_cons, hc]
  | cons a l ih =>
    rw [List.cons_append, List.findSome?_cons, hpre a (by simp)]
    exact ih (fun x hx => hpre x (by simp [hx]))

theorem findSome?_none_of_all {α β : Type} (f : α → Option β) (l : List α)
    (h : ∀ a ∈ l, f a = none) : l.findSome? f = none := by
  induction l with
  | nil => rfl
  | cons a l ih =>
    rw [List.findSome?_cons, h a (by simp)]
    exact ih (fun x hx => h x (by simp [hx]))

/--
C1. `DomainMatcher.match` lowercases the queried name; returns the stored exact
literal rule when present; otherwise probes the wildcard keys `*.suffix` for the
proper label-suffixes of the name, in order, returning the first hit — the
candidate list is strictly decreasing in suffix length, so a longer-suffix
wildcard beats a shorter one and the exact literal beats any wildcard; the key
`*.name` is never among the candidates for `name` itself (deleting that rule
does not change the result); and when no rule matches, the result is
`matched = false, tunnel = false`.
-/
theorem matchDomain_spec (m : Rules) (d : String) :
    (matchDomain m d = matchDomain m (lowerStr d))
    ∧ (∀ r : DomainRule, mget m (lowerStr d) = some r →
        matchDomain m d = ⟨true, r.tunnel, some r.pattern⟩)
    ∧ (mget m (lowerStr d) = none →
        ∀ (pre : List String) (c : String) (post : List String) (r : DomainRule),
          wildcardCandidates (lowerStr d) = pre ++ c :: post →
          (∀ p ∈ pre, mget m p = none) →
          mget m c = some r →
          matchDomain m d = ⟨true, r.tunnel, some r.pattern⟩)
    ∧ List.Pairwise (fun a b : String => b.data.length < a.data.length)
        (wildcardCandidates (lowerStr d))
    ∧ (("*." ++ lowerStr d) ∉ wildcardCandidates (lowerStr d)
        ∧ matchDomain (mdel m ("*." ++ lowerStr d)) d = matchDomain m d)
    ∧ (mget m (lowerStr d) = none →
        (∀ c ∈ wildcardCandidates (lowerStr d), mget m c = none) →
        matchDomain m d = ⟨false, false, none⟩) := by
  have hne : ("*." ++ lowerStr d) ≠ lowerStr d := by
    intro h
    have := congrArg (fun s : String => s.data.length) h
    simp [data_append_star] at this
    omega
  have hnotmem : ("*." ++ lowerStr d) ∉ wildcardCandidates (lowerStr d) := by
    rw [wildcardCandidates_eq]
    intro hmem
    rw [List.mem_map] at hmem
    obtain ⟨tc, htc, heq⟩ := hmem
    have hdata := congrArg String.data heq
    rw [data_append_star, data_append_star] at hdata
    have hjd : joinDot tc = (lowerStr d).data := by
      simpa using hdata
    have hlt := mem_properTails_length_lt (splitOnDot (lowerStr d).data) tc htc
    rw [hjd, joinDot_splitOnDot] at hlt
    exact lt_irrefl _ hlt
  refine ⟨?_, ?_, ?_, ?_, ⟨hnotmem, ?_⟩, ?_⟩
  · unfold matchDomain
    rw [lowerStr_idem]
  · intro r hr
    unfold matchDomain
    rw [hr]
  · intro hnone pre c post r hsplit hpre hc
    unfold matchDomain
    rw [hnone]
    have : findWildcard m (wildcardCandidates (lowerStr d)) = some r := by
      rw [findWildcard, hsplit]
      exact findSome?_append_first _ pre c post r hpre hc
    rw [this]
  · rw [wildcardCandidates_eq]
    refine List.Pairwise.map _ ?_ (properTails_pairwise (splitOnDot (lowerStr d).data))
    intro u v huv
    simpa [data_append_star] using huv
  · unfold matchDomain
    rw [mget_mdel_ne _ _ _ hne]
    have : findWildcard (mdel m ("*." ++ lowerStr d)) (wildcardCandidates (lowerStr d))
        = findWildcard m (wildcardCandidates (lowerStr d)) := by
      unfold findWildcard
      refine findSome?_congr _ _ _ (fun c hc => ?_)
      have : ("*." ++ lowerStr d) ≠ c := by
        intro h
        exact hnotmem (h ▸ hc)
      exact mget_mdel_ne _ _ _ this
    rw [this]
  · intro hnone hall
    unfold matchDomain
    rw [hnone]
    have : findWildcard m (wildcardCandidates (lowerStr d)) = none :=
      findSome?_none_of_all _ _ hall
    rw [this]

/-- Witness for C1: a concrete mixed-case query against a one-rule set is
resolved by the exact-literal clause of `matchDomain_spec`. -/
theorem matchDomain_spec_witness :
    matchDomain [("api.example.com", ⟨"api.example.com", true⟩)] "API.Example.Com"
      = ⟨true, true, some "api.example.com"⟩ :=
  (matchDomain_spec [("api.example.com", ⟨"api.example.com", true⟩)] "API.Example.Com").2.1
    ⟨"api.example.com", true⟩ (by decide)

/-! ### Trim and normalization lemmas -/

theorem dropWhile_eq_self_of_head {α : Type} (p : α → Bool) (l : List α)
    (h : ∀ a, l.head? = some a → p a = false) : l.dropWhile p = l := by
  cases l with
  | nil => rfl
  | cons x xs => simp [List.dropWhile_cons, h x rfl]

theorem dropWhile_idem {α : Type} (p : α → Bool) (l : List α) :
    (l.dropWhile p).dropWhile p = l.dropWhile p := by
  refine dropWhile_eq_self_of_head p _ (fun a ha => ?_)
  have h := List.head?_dropWhile_not p l
  rw [ha] at h
  exact h

theorem getLast?_dropWhile_of_ne_nil {α : Type} (p : α → Bool) (l : List α)
    (h : l.dropWhile p ≠ []) : (l.dropWhile p).getLast? = l.getLast? := by
  induction l with
  | nil => simp at h
  | cons x xs ih =>
    by_cases hx : p x
    · rw [List.dropWhile_cons, if_pos hx] at h ⊢
      have hxs : xs ≠ [] := by
        intro hn
        rw [hn] at h
        simp at h
      rw [ih h]
      cases xs with
      | nil => exact absurd rfl hxs
      | cons y ys => rw [List.getLast?_cons_cons]
    · rw [List.dropWhile_cons, if_neg hx]

theorem trimChars_map_lower (l : List Char) :
    trimChars (l.map lowerChar) = (trimChars l).map lowerChar := by
  have hdw : ∀ l' : List Char,
      (l'.map lowerChar).dropWhile isSpaceChar
        = (l'.dropWhile isSpaceChar).map lowerChar := by
    intro l'
    rw [List.dropWhile_map]
    have : (isSpaceChar ∘ lowerChar) = isSpaceChar :=
      funext fun a => by simp [Function.comp_def, isSpaceChar_lowerChar]
    rw [this]
  rw [trimChars, trimChars, hdw, ← List.map_reverse, hdw, ← List.map_reverse]

theorem trimChars_idem (l : List Char) : trimChars (trimChars l) = trimChars l := by
  set p := isSpaceChar with hp
  set B := ((l.dropWhile p).reverse).dropWhile p with hB
  have hBrev : trimChars l = B.reverse := rfl
  have step1 : B.reverse.dropWhile p = B.reverse := by
    refine dropWhile_eq_self_of_head p _ (fun a ha => ?_)
    rw [List.head?_reverse] at ha
    have hBne : B ≠ [] := by
      intro hn
      rw [hn] at ha
      simp at ha
    rw [hB, getLast?_dropWhile_of_ne_nil _ _ (hB ▸ hBne), List.getLast?_reverse] at ha
    have h := List.head?_dropWhile_not p l
    rw [ha] at h
    exact h
  rw [hBrev, trimChars, step1, List.reverse_reverse, hB, dropWhile_idem]

theorem trimStr_normalizePattern (p : String) :
    trimStr (normalizePattern p) = normalizePattern p := by
  simp only [normalizePattern, trimStr, lowerStr, data_mk]
  rw [trimChars_idem]

theorem lowerStr_normalizePattern (p : String) :
    lowerStr (normalizePattern p) = normalizePattern p := by
  simp only [normalizePattern, trimStr, lowerStr, data_mk]
  rw [← trimChars_map_lower, List.map_map]
  have : (lowerChar ∘ lowerChar) = lowerChar := funext fun c => lowerChar_idem c
  rw [this]

theorem normalizePattern_idem (p : String) :
    normalizePattern (normalizePattern p) = normalizePattern p := by
  rw [normalizePattern, lowerStr_normalizePattern, trimStr_normalizePattern]

/-- A valid pattern normalizes to a valid pattern (the stored form). -/
theorem isValidPattern_normalizePattern (p : String)
    (h : (isValidPattern p).1 = true) :
    (isValidPattern (normalizePattern p)).1 = true := by
  have hvn : (validNormalized (normalizePattern p)).1 = true := by
    by_cases hemp : p.data = [] ∨ (trimStr p).data = []
    · rw [isValidPattern, if_pos hemp] at h
      simp at h
    · rwa [isValidPattern, if_neg hemp] at h
  have hne : (normalizePattern p).data ≠ [] := by
    intro hn
    have hempty : normalizePattern p = "" := by
      apply String.ext
      rw [hn]
    rw [hempty] at hvn
    have hfalse : (validNormalized "").1 = false := by decide
    rw [hfalse] at hvn
    exact Bool.false_ne_true hvn
  rw [isValidPattern, if_neg, normalizePattern_idem]
  · exact hvn
  · rw [trimStr_normalizePattern]
    intro hor
    rcases hor with h₁ | h₁ <;> exact hne h₁

/-! ### The `domains:add` IPC handler (src/main.ts) -/

/-- The `ipcMain.handle('domains:add', …)` handler: validate with
`DomainMatcher.isValidPattern`, reject invalid patterns without touching the
matcher, otherwise `addRule`. Returns the new rule map and
`{success, error?}`. -/
def domainsAdd (m : Rules) (pattern : String) (tunnel : Bool) :
    Rules × (Bool × Option String) :=
  if (isValidPattern pattern).1 = false then (m, (false, (isValidPattern pattern).2))
  else (addRule m pattern tunnel, (true, none))

/-- Every stored rule pattern passes `isValidPattern`. -/
def allRulesValid (m : Rules) : Bool :=
  m.all (fun e => (isValidPattern e.2.pattern).1)

theorem mem_mset {β : Type} (m : List (String × β)) (k : String) (v : β) (e : String × β)
    (h : e ∈ mset m k v) : e ∈ m ∨ e = (k, v) := by
  induction m with
  | nil => simpa [mset] using h
  | cons hd rest ih =>
    by_cases hk : hd.1 = k
    · obtain ⟨k₀, v₀⟩ := hd
      simp only at hk
      rw [mset, if_pos hk] at h
      rcases List.mem_cons.mp h with rfl | h₁
      · right
        rw [hk]
      · left
        exact List.mem_cons_of_mem _ h₁
    · obtain ⟨k₀, v₀⟩ := hd
      simp only at hk
      rw [mset, if_neg hk] at h
      rcases List.mem_cons.mp h with rfl | h₁
      · left
        exact List.mem_cons_self _ _
      · rcases ih h₁ with h₂ | h₂
        · left
          exact List.mem_cons_of_mem _ h₂
        · right
          exact h₂

theorem allRulesValid_addRule (m : Rules) (p : String) (t : Bool)
    (hm : allRulesValid m = true) (hp : (isValidPattern p).1 = true) :
    allRulesValid (addRule m p t) = true := by
  rw [allRulesValid, List.all_eq_true]
  intro e he
  rcases mem_mset _ _ _ _ he with h₁ | h₁
  · exact (List.all_eq_true.mp hm) e h₁
  · rw [h₁]
    exact isValidPattern_normalizePattern p hp

/--
C7 counterexample: `DomainMatcher.addRule` performs no validation. Adding the
invalid pattern `"!!!"` (rejected by `isValidPattern`) to an empty matcher
mutates the rule set and stores an invalid pattern, contradicting the claim
that `add` rejects invalid patterns without mutating the rule set.
-/
theorem addRule_accepts_invalid :
    (isValidPattern "!!!").1 = false
      ∧ addRule [] "!!!" true = [("!!!", ⟨"!!!", true⟩)]
      ∧ allRulesValid (addRule [] "!!!" true) = false := by
  refine ⟨by decide, by decide, by decide⟩

/--
C7 (amended): `DomainMatcher.addRule` itself stores any (normalized) pattern;
the validation guard lives in the `domains:add` IPC handler, which rejects an
invalid pattern without mutating the rule set and otherwise adds it. Under that
handler — together with `removeRule`, and `loadRules` applied to lists of valid
rules — every stored rule pattern satisfies `isValidPattern`.
-/
theorem domainsAdd_validation (m : Rules) (p : String) (t : Bool) :
    ((isValidPattern p).1 = false →
      domainsAdd m p t = (m, (false, (isValidPattern p).2)))
    ∧ ((isValidPattern p).1 = true →
      domainsAdd m p t = (addRule m p t, (true, none)))
    ∧ (allRulesValid m = true → allRulesValid (domainsAdd m p t).1 = true)
    ∧ (allRulesValid m = true → allRulesValid (removeRule m p).1 = true)
    ∧ (∀ rs : List DomainRule, (∀ r ∈ rs, (isValidPattern r.pattern).1 = true) →
        allRulesValid (loadRules rs) = true) := by
  refine ⟨?_, ?_, ?_, ?_, ?_⟩
  · intro h
    rw [domainsAdd, if_pos h]
  · intro h
    rw [domainsAdd, if_neg]
    rw [h]
    simp
  · intro hm
    by_cases h : (isValidPattern p).1 = false
    · rw [domainsAdd, if_pos h]
      exact hm
    · rw [domainsAdd, if_neg h]
      exact allRulesValid_addRule m p t hm (by simpa using h)
  · intro hm
    rw [allRulesValid, List.all_eq_true]
    intro e he
    have : e ∈ m := by
      rw [removeRule] at he
      simp only at he
      exact List.mem_of_mem_filter he
    exact (List.all_eq_true.mp hm) e this
  · intro rs hrs
    have main : ∀ (rs' : List DomainRule) (acc : Rules),
        (∀ r ∈ rs', (isValidPattern r.pattern).1 = true) →
        allRulesValid acc = true →
        allRulesValid (rs'.foldl (fun m' r => addRule m' r.pattern r.tunnel) acc) = true := by
      intro rs'
      induction rs' with
      | nil => intro acc _ hacc; exact hacc
      | cons r rest ih =>
        intro acc hall hacc
        rw [List.foldl_cons]
        exact ih _ (fun x hx => hall x (List.mem_cons_of_mem _ hx))
          (allRulesValid_addRule acc r.pattern r.tunnel hacc (hall r (List.mem_cons_self _ _)))
    exact main rs [] hrs (by decide)

/-- Witness for C7: the handler rejects `"!!!"` and leaves the matcher empty,
and accepts a valid pattern. -/
theorem domainsAdd_validation_witness :
    domainsAdd [] "!!!" true = ([], (false, some "Invalid domain format"))
      ∧ allRulesValid (domainsAdd [] "example.com" true).1 = true :=
  ⟨by
    have h := (domainsAdd_validation [] "!!!" true).1 (by decide)
    rw [h]
    decide,
   (domainsAdd_validation [] "example.com" true).2.2.1 (by decide)⟩

/-! ## DNS proxy (`DnsProxy`)

DNS packets are modelled after the decoded `dns-packet` shape used by the
source: `id`, `type`, `flags`, `questions`, `answers`. `answer.ttl` being
`undefined` is modelled as `none`; JavaScript truthiness of `answer.ttl`
is `ttl` present and nonzero. -/

structure DnsQuestion where
  name : String
  qtype : String
deriving DecidableEq, Repr

structure DnsAnswer where
  atype : String
  rdata : Option String
  ttl : Option Nat
deriving DecidableEq, Repr

structure DnsPacket where
  id : Nat
  ptype : String
  flags : Nat
  questions : List DnsQuestion
  answers : List DnsAnswer
deriving DecidableEq, Repr

/-- The `SERVFAIL` response-code constant the source takes from the
`dns-packet` library (DNS RCODE 2, RFC 1035); the RCODE occupies the low
four bits of the flags word. -/
def SERVFAIL : Nat := 2

/-- The DNS RCODE carried by a packet's flags (low four bits). -/
def rcode (p : DnsPacket) : Nat := p.flags % 16

/-- `DnsProxy.extractIps`: the addresses of the A-record answers. -/
def extractIps (p : DnsPacket) : List String :=
  p.answers.filterMap (fun a => if a.atype = "A" then a.rdata else none)

/-- `DnsProxy.extractMinTtl`: start from 3600 and lower it by every truthy
`answer.ttl` that is smaller than the current value. -/
def extractMinTtl (p : DnsPacket) : Nat :=
  p.answers.foldl
    (fun acc a =>
      match a.ttl with
      | some t => if t ≠ 0 ∧ t < acc then t else acc
      | none => acc)
    3600

/-- Modelled from the spec: "the minimum TTL across answers (default 3600 if
no answer carries TTL)" — for comparison with `extractMinTtl`. -/
def specMinTtl (p : DnsPacket) : Nat :=
  match p.answers.filterMap (fun a => a.ttl) with
  | [] => 3600
  | t :: ts => ts.foldl min t

/-- `DnsProxy.sendErrorResponse`: the synthesized SERVFAIL response. -/
def sendErrorResponse (original : DnsPacket) : DnsPacket :=
  { id := original.id
    ptype := "response"
    flags := SERVFAIL
    questions := original.questions
    answers := [] }

/-- The observable behaviour of the upstream exchange of one query: either a
response datagram arrives after some delay, or the socket errors out. -/
inductive UpstreamBehavior where
  | replyAfter (resp : DnsPacket) (delayMs : Nat)
  | failure (msg : String)
deriving DecidableEq, Repr

/-- `DnsProxy.forwardQuery`: resolve with the upstream response if it arrives
before the 5000 ms timer fires, otherwise reject (timeout or socket error). -/
def forwardQuery (u : UpstreamBehavior) : Except String DnsPacket :=
  match u with
  | .replyAfter resp delay =>
    if delay < 5000 then .ok resp else .error "DNS query timeout"
  | .failure msg => .error msg

/-- The datagram `DnsProxy.handleQuery` sends back to the client: `none` when
the query has no questions (dropped); the upstream response bytes verbatim on
success; the synthesized SERVFAIL response when the forward fails. -/
def handleQueryReply (pkt : DnsPacket) (u : UpstreamBehavior) : Option DnsPacket :=
  if pkt.questions.isEmpty then none
  else
    match forwardQuery u with
    | .ok resp => some resp
    | .error _ => some (sendErrorResponse pkt)

/--
C5. If the upstream does not answer within the 5-second timeout or the
exchange fails, the proxy sends the client a synthesized response that copies
the query's id and questions, has zero answers, and carries response code
SERVFAIL.
-/
theorem servfail_on_upstream_failure (pkt : DnsPacket) (u : UpstreamBehavior)
    (hq : pkt.questions ≠ [])
    (hu : (∃ msg, u = .failure msg)
        ∨ (∃ resp delay, u = .replyAfter resp delay ∧ 5000 ≤ delay)) :
    handleQueryReply pkt u = some (sendErrorResponse pkt)
    ∧ (sendErrorResponse pkt).id = pkt.id
    ∧ (sendErrorResponse pkt).questions = pkt.questions
    ∧ (sendErrorResponse pkt).answers = []
    ∧ rcode (sendErrorResponse pkt) = SERVFAIL := by
  have hforward : ∃ msg, forwardQuery u = .error msg := by
    rcases hu with ⟨msg, rfl⟩ | ⟨resp, delay, rfl, hdelay⟩
    · exact ⟨msg, rfl⟩
    · refine ⟨"DNS query timeout", ?_⟩
      rw [forwardQuery, if_neg]
      omega
  obtain ⟨msg, hmsg⟩ := hforward
  refine ⟨?_, rfl, rfl, rfl, rfl⟩
  rw [handleQueryReply, if_neg (by simpa [List.isEmpty_iff] using hq), hmsg]

/-- Witness for C5: a concrete query against a failing upstream yields the
concrete SERVFAIL packet. -/
theorem servfail_on_upstream_failure_witness :
    handleQueryReply ⟨7, "query", 256, [⟨"example.com", "A"⟩], []⟩
        (.failure "socket error")
      = some ⟨7, "response", 2, [⟨"example.com", "A"⟩], []⟩ := by
  have h := servfail_on_upstream_failure ⟨7, "query", 256, [⟨"example.com", "A"⟩], []⟩
    (.failure "socket error") (by decide) (Or.inl ⟨"socket error", rfl⟩)
  exact h.1

/--
C8 counterexample: a response whose only answer has TTL 7200 produces ttl 3600
(`extractMinTtl` never reports more than 3600), while the minimum TTL across
the answers is 7200 and the answer does carry a TTL — contradicting both halves
of the claim.
-/
theorem extractMinTtl_caps_at_default :
    extractMinTtl ⟨1, "response", 0, [], [⟨"A", some "93.184.216.34", some 7200⟩]⟩ = 3600
    ∧ specMinTtl ⟨1, "response", 0, [], [⟨"A", some "93.184.216.34", some 7200⟩]⟩ = 7200
    ∧ (3600 : Nat) ≠ 7200 := by
  refine ⟨by decide, by decide, by decide⟩

theorem extractMinTtl_foldl (l : List DnsAnswer) (acc : Nat) :
    l.foldl
        (fun acc a =>
          match a.ttl with
          | some t => if t ≠ 0 ∧ t < acc then t else acc
          | none => acc)
        acc
      = ((l.filterMap (fun a => a.ttl)).filter (fun t => t ≠ 0)).foldl min acc := by
  induction l generalizing acc with
  | nil => rfl
  | cons a rest ih =>
    cases ha : a.ttl with
    | none => simp [List.foldl_cons, List.filterMap_cons, ha, ih]
    | some v =>
      by_cases hv : v = 0
      · simp [List.foldl_cons, List.filterMap_cons, ha, hv, List.filter_cons, ih]
      · have hstep :
            (if v ≠ 0 ∧ v < acc then v else acc) = min acc v := by
          by_cases hlt : v < acc
          · rw [if_pos ⟨hv, hlt⟩]
            omega
          · rw [if_neg (by tauto)]
            omega
        simp only [List.foldl_cons, List.filterMap_cons, ha, List.filter_cons, hstep]
        rw [if_pos (by simpa using hv)]
        rw [List.foldl_cons, ih]

/--
C8 (amended): the ttl reported by `extractMinTtl` is the fold of `min` over
3600 and every present, nonzero answer TTL — i.e. the minimum of 3600 and the
answers' truthy TTLs. In particular it never exceeds 3600: it equals the
true minimum only when that minimum is at most 3600, and it is 3600 whenever
no answer carries a nonzero TTL below 3600.
-/
theorem extractMinTtl_spec (p : DnsPacket) :
    extractMinTtl p
      = ((p.answers.filterMap (fun a => a.ttl)).filter (fun t => t ≠ 0)).foldl min 3600
    ∧ extractMinTtl p ≤ 3600 := by
  have h := extractMinTtl_foldl p.answers 3600
  refine ⟨h, ?_⟩
  rw [extractMinTtl, h]
  have hle : ∀ (l : List Nat) (a : Nat), l.foldl min a ≤ a := by
    intro l
    induction l with
    | nil => intro a; exact Nat.le_refl a
    | cons x rest ih =>
      intro a
      calc (x :: rest).foldl min a = rest.foldl min (min a x) := rfl
        _ ≤ min a x := ih (min a x)
        _ ≤ a := Nat.min_le_left a x
  exact hle _ 3600

/-! ## Route manager (`RouteManager`)

The VPN adapter is external to the route manager: each operation that calls
it takes a `wgFails : Bool` describing whether that call throws, and the
conflict detector's `hasConflict` is passed as a predicate. Operations
return the new state, the events emitted, the ip list passed to the adapter
(empty when no call is made), and `true` when no error was thrown. -/

structure InjectedRoute where
  ip : String
  domain : String
  injectedAt : Nat
  ttl : Nat
  expiresAt : Nat
deriving DecidableEq, Repr

structure RMState where
  injectedRoutes : List (String × InjectedRoute)
  domainToIps : List (String × List String)
  originalAllowedIps : List String
  cleanupTimer : Bool
deriving DecidableEq, Repr

inductive RMEvent where
  | routeSkipped (ip domain reason : String)
  | routesInjected (domain : String) (ips : List String) (ttl : Nat)
  | routesRemoved (domain : String) (ips : List String)
  | routeRemoved (ip domain : String)
  | routesCleared (count : Nat)
  | routesExpired (ips : List String) (count : Nat)
  | errorEvent
  | stoppedEvent
deriving DecidableEq, Repr

/-- `ip.includes('/') ? ip : ip + '/32'`. -/
def withMask (ip : String) : String :=
  if ip.data.contains '/' then ip else ip ++ "/32"

/-- Accumulator of the per-ip loop in `RouteManager.injectRoutes`. -/
structure InjectAcc where
  tbl : List (String × InjectedRoute)
  dmap : List (String × List String)
  evs : List RMEvent
  inj : List String
deriving DecidableEq, Repr

/-- One iteration of the `injectRoutes` loop body. -/
def injectStep (hasConf : String → Bool) (orig : List String) (nd : String)
    (ttl now : Nat) (acc : InjectAcc) (ip : String) : InjectAcc :=
  if hasConf ip then
    { acc with evs := acc.evs ++ [.routeSkipped ip nd "conflict"] }
  else
    match mget acc.tbl (withMask ip) with
    | some existing =>
      if existing.domain = nd then
        { acc with tbl := (mset acc.tbl (withMask ip)
            { existing with ttl := ttl, expiresAt := now + ttl * 1000 }) }
      else acc
    | none =>
      if withMask ip ∈ orig then acc
      else
        { tbl := (mset acc.tbl (withMask ip)
            ⟨withMask ip, nd, now, ttl, now + ttl * 1000⟩)
          dmap := mset acc.dmap nd (sadd ((mget acc.dmap nd).getD []) (withMask ip))
          evs := acc.evs
          inj := acc.inj ++ [withMask ip] }

/-- The whole per-ip loop of `injectRoutes`, from a fresh accumulator. -/
def injectLoopRun (s : RMState) (hasConf : String → Bool) (domain : String)
    (ips : List String) (ttl now : Nat) : InjectAcc :=
  ips.foldl (injectStep hasConf s.originalAllowedIps (lowerStr domain) ttl now)
    ⟨s.injectedRoutes, s.domainToIps, [], []⟩

/-- The rollback of `injectRoutes` on `addAllowedIps` failure: delete every
buffered key from the route table and from the domain's ip set. -/
def injectRollback (r : InjectAcc) (nd : String) :
    List (String × InjectedRoute) × List (String × List String) :=
  (r.inj.foldl (fun t k => mdel t k) r.tbl,
   r.inj.foldl
     (fun dm k =>
       match mget dm nd with
       | some st => mset dm nd (sdel st k)
       | none => dm) r.dmap)

/-- `RouteManager.injectRoutes`. Returns
`(state, events, ips passed to addAllowedIps, no-throw)`. -/
def injectRoutes (s : RMState) (hasConf : String → Bool) (domain : String)
    (ips : List String) (ttl now : Nat) (wgFails : Bool) :
    RMState × List RMEvent × List String × Bool :=
  if (injectLoopRun s hasConf domain ips ttl now).inj.isEmpty then
    ({ s with injectedRoutes := (injectLoopRun s hasConf domain ips ttl now).tbl
              domainToIps := (injectLoopRun s hasConf domain ips ttl now).dmap },
     (injectLoopRun s hasConf domain ips ttl now).evs, [], true)
  else if wgFails then
    ({ s with
        injectedRoutes :=
          (injectRollback (injectLoopRun s hasConf domain ips ttl now) (lowerStr domain)).1
        domainToIps :=
          (injectRollback (injectLoopRun s hasConf domain ips ttl now) (lowerStr domain)).2 },
     (injectLoopRun s hasConf domain ips ttl now).evs,
     (injectLoopRun s hasConf domain ips ttl now).inj, false)
  else
    ({ s with injectedRoutes := (injectLoopRun s hasConf domain ips ttl now).tbl
              domainToIps := (injectLoopRun s hasConf domain ips ttl now).dmap },
     (injectLoopRun s hasConf domain ips ttl now).evs
       ++ [.routesInjected (lowerStr domain) (injectLoopRun s hasConf domain ips ttl now).inj ttl],
     (injectLoopRun s hasConf domain ips ttl now).inj, true)

/-- `RouteManager.removeRoutesForDomain`. -/
def removeRoutesForDomain (s : RMState) (domain : String) (wgFails : Bool) :
    RMState × List RMEvent × List String × Bool :=
  match mget s.domainToIps (lowerStr domain) with
  | none => (s, [], [], true)
  | some dips =>
    if dips.isEmpty then (s, [], [], true)
    else if wgFails then (s, [.errorEvent], dips, false)
    else
      ({ s with
          injectedRoutes := dips.foldl (fun t ip => mdel t ip) s.injectedRoutes
          domainToIps := mdel s.domainToIps (lowerStr domain) },
       [.routesRemoved (lowerStr domain) dips], dips, true)

/-- `RouteManager.removeRoute`. -/
def removeRoute (s : RMState) (ip : String) (wgFails : Bool) :
    RMState × List RMEvent × List String × Bool :=
  match mget s.injectedRoutes (withMask ip) with
  | none => (s, [], [], true)
  | some route =>
    if wgFails then (s, [.errorEvent], [withMask ip], false)
    else
      ({ s with
          injectedRoutes := mdel s.injectedRoutes (withMask ip)
          domainToIps :=
            match mget s.domainToIps route.domain with
            | none => s.domainToIps
            | some dips =>
              if (sdel dips (withMask ip)).isEmpty then mdel s.domainToIps route.domain
              else mset s.domainToIps route.domain (sdel dips (withMask ip)) },
       [.routeRemoved (withMask ip) route.domain], [withMask ip], true)

/-- `RouteManager.clearAllRoutes`. -/
def clearAllRoutes (s : RMState) (wgFails : Bool) :
    RMState × List RMEvent × List String × Bool :=
  if (s.injectedRoutes.map (·.1)).isEmpty then (s, [], [], true)
  else if wgFails then (s, [.errorEvent], s.injectedRoutes.map (·.1), false)
  else
    ({ s with injectedRoutes := [], domainToIps := [] },
     [.routesCleared (s.injectedRoutes.map (·.1)).length], s.injectedRoutes.map (·.1), true)

/-- `RouteManager.stop`: cancel the cleanup timer, then `clearAllRoutes`;
`stopped` is emitted only when the clearing succeeds, otherwise the error
propagates to the caller. -/
def stopRM (s : RMState) (wgFails : Bool) :
    RMState × List RMEvent × List String × Bool :=
  if (clearAllRoutes { s with cleanupTimer := false } wgFails).2.2.2 then
    ((clearAllRoutes { s with cleanupTimer := false } wgFails).1,
     (clearAllRoutes { s with cleanupTimer := false } wgFails).2.1 ++ [.stoppedEvent],
     (clearAllRoutes { s with cleanupTimer := false } wgFails).2.2.1, true)
  else clearAllRoutes { s with cleanupTimer := false } wgFails

/-- The routes of the table whose `expiresAt` has passed. -/
def expiredIps (s : RMState) (now : Nat) : List String :=
  (s.injectedRoutes.filter (fun e => e.2.expiresAt < now)).map (·.1)

/-- One iteration of the per-expired-ip removal loop of
`cleanupExpiredRoutes`, over (route table, domain map). -/
def cleanupPairStep
    (acc : List (String × InjectedRoute) × List (String × List String))
    (ip : String) : List (String × InjectedRoute) × List (String × List String) :=
  (mdel acc.1 ip,
   match mget acc.1 ip with
   | some route =>
     (match mget acc.2 route.domain with
      | some dips =>
        if (sdel dips ip).isEmpty then mdel acc.2 route.domain
        else mset acc.2 route.domain (sdel dips ip)
      | none => acc.2)
   | none => acc.2)

/-- `RouteManager.cleanupExpiredRoutes` (failure is reported but not
rethrown). -/
def cleanupExpiredRoutes (s : RMState) (now : Nat) (wgFails : Bool) :
    RMState × List RMEvent :=
  if (expiredIps s now).isEmpty then (s, [])
  else if wgFails then (s, [.errorEvent])
  else
    ({ s with
        injectedRoutes :=
          ((expiredIps s now).foldl cleanupPairStep (s.injectedRoutes, s.domainToIps)).1
        domainToIps :=
          ((expiredIps s now).foldl cleanupPairStep (s.injectedRoutes, s.domainToIps)).2 },
     [.routesExpired (expiredIps s now) (expiredIps s now).length])

/-! ### Route-manager lemmas -/

theorem isSome_mget_mset {β : Type} (m : List (String × β)) (k k' : String) (v : β) :
    (mget (mset m k v) k').isSome = true ↔ (k' = k ∨ (mget m k').isSome = true) := by
  by_cases h : k' = k
  · subst h
    rw [mget_mset_self]
    simp
  · rw [mget_mset_ne m k k' v (fun hk => h hk.symm)]
    simp [h]

theorem mget_foldl_mdel {β : Type} (l : List String) (t : List (String × β)) (k : String) :
    mget (l.foldl (fun t' k' => mdel t' k') t) k = if k ∈ l then none else mget t k := by
  induction l generalizing t with
  | nil => simp
  | cons x xs ih =>
    rw [List.foldl_cons, ih]
    by_cases h1 : k ∈ xs
    · simp [h1]
    · by_cases h2 : k = x
      · subst h2
        simp [h1, mget_mdel_self]
      · simp [h1, h2, mget_mdel_ne t x k (fun h => h2 h.symm)]

/-- A quantity left unchanged by every step of a fold is unchanged by the fold. -/
theorem foldl_frame {β γ : Type} (g : β → γ) (step : β → String → β) (l : List String)
    (h : ∀ acc x, g (step acc x) = g acc) : ∀ acc, g (l.foldl step acc) = g acc := by
  induction l with
  | nil => intro acc; rfl
  | cons x xs ih =>
    intro acc
    rw [List.foldl_cons, ih (step acc x), h acc x]

/-- Membership in a monotonically growing component survives a fold. -/
theorem foldl_mem_mono {β γ : Type} (g : β → List γ) (step : β → String → β)
    (l : List String) (h : ∀ acc x, ∀ e ∈ g acc, e ∈ g (step acc x)) :
    ∀ acc, ∀ e ∈ g acc, e ∈ g (l.foldl step acc) := by
  induction l with
  | nil => exact fun acc e he => he
  | cons x xs ih =>
    intro acc e he
    rw [List.foldl_cons]
    exact ih (step acc x) e (h acc x e he)

theorem injectStep_evs_mono (f : String → Bool) (orig : List String) (nd : String)
    (ttl now : Nat) (acc : InjectAcc) (x : String) (e : RMEvent) (he : e ∈ acc.evs) :
    e ∈ (injectStep f orig nd ttl now acc x).evs := by
  rw [injectStep]
  by_cases hc : f x = true
  · rw [if_pos hc]
    simp [he]
  · rw [if_neg hc]
    rcases hg : mget acc.tbl (withMask x) with _ | existing
    · simp only [hg]
      by_cases ho : withMask x ∈ orig
      · simp [ho, he]
      · simp [ho, he]
    · simp only [hg]
      by_cases hd : existing.domain = nd
      · simp [hd, he]
      · simp [hd, he]

/-- A conflicting input ip gets its `route-skipped` event. -/
theorem injectLoop_skip_event (f : String → Bool) (orig : List String) (nd : String)
    (ttl now : Nat) (ips : List String) :
    ∀ (acc : InjectAcc) (ip : String), ip ∈ ips → f ip = true →
      RMEvent.routeSkipped ip nd "conflict"
        ∈ (ips.foldl (injectStep f orig nd ttl now) acc).evs := by
  induction ips with
  | nil => simp
  | cons x rest ih =>
    intro acc ip hmem hc
    rw [List.foldl_cons]
    rcases List.mem_cons.mp hmem with rfl | hmem
    · refine foldl_mem_mono (·.evs) (injectStep f orig nd ttl now) rest
        (fun a y e he => injectStep_evs_mono f orig nd ttl now a y e he) _ _ ?_
      rw [injectStep, if_pos hc]
      simp
    · exact ih _ ip hmem hc

/-- One step of the loop neither touches the table entry of a conflicting ip
nor buffers it, given a mask-consistent conflict predicate. -/
theorem injectStep_conflict_frame (f : String → Bool) (orig : List String) (nd : String)
    (ttl now : Nat) (ip : String) (hip : f ip = true)
    (hcons : ∀ a b : String, withMask a = withMask b → f a = f b)
    (acc : InjectAcc) (x : String) :
    (mget (injectStep f orig nd ttl now acc x).tbl (withMask ip),
      decide (withMask ip ∈ (injectStep f orig nd ttl now acc x).inj))
      = (mget acc.tbl (withMask ip), decide (withMask ip ∈ acc.inj)) := by
  rw [injectStep]
  by_cases hcx : f x = true
  · rw [if_pos hcx]
  · have hne : withMask x ≠ withMask ip := by
      intro h
      exact hcx ((hcons x ip h).trans hip)
    rw [if_neg hcx]
    rcases hg : mget acc.tbl (withMask x) with _ | existing
    · simp only [hg]
      by_cases ho : withMask x ∈ orig
      · rw [if_pos ho]
      · rw [if_neg ho]
        simp only [Prod.mk.injEq]
        refine ⟨mget_mset_ne _ _ _ _ hne, ?_⟩
        rw [decide_eq_decide]
        simp only [List.mem_append, List.mem_singleton]
        constructor
        · rintro (h | h)
          · exact h
          · exact absurd h (fun hh => hne hh.symm)
        · exact Or.inl
    · simp only [hg]
      by_cases hd : existing.domain = nd
      · simp [hd, mget_mset_ne _ _ _ _ hne]
      · simp [hd]

/-- Under a mask-consistent conflict predicate, the whole loop leaves a
conflicting ip's table entry alone and never buffers it for injection. -/
theorem injectLoop_conflict_key (f : String → Bool) (orig : List String) (nd : String)
    (ttl now : Nat) (ip : String) (hip : f ip = true)
    (hcons : ∀ a b : String, withMask a = withMask b → f a = f b)
    (ips : List String) (acc : InjectAcc) :
    mget (ips.foldl (injectStep f orig nd ttl now) acc).tbl (withMask ip)
        = mget acc.tbl (withMask ip)
    ∧ (withMask ip ∈ (ips.foldl (injectStep f orig nd ttl now) acc).inj
        ↔ withMask ip ∈ acc.inj) := by
  have h := foldl_frame
    (fun a : InjectAcc => (mget a.tbl (withMask ip), decide (withMask ip ∈ a.inj)))
    (injectStep f orig nd ttl now) ips
    (fun a x => injectStep_conflict_frame f orig nd ttl now ip hip hcons a x) acc
  have h1 := congrArg Prod.fst h
  have h2 := congrArg Prod.snd h
  simp only at h1 h2
  refine ⟨h1, ?_⟩
  · constructor
    · intro hmem
      have : decide (withMask ip ∈ acc.inj) = true := by
        rw [← h2]
        exact decide_eq_true hmem
      exact of_decide_eq_true this
    · intro hmem
      have : decide (withMask ip
          ∈ (ips.foldl (injectStep f orig nd ttl now) acc).inj) = true := by
        rw [h2]
        exact decide_eq_true hmem
      exact of_decide_eq_true this

/-- Invariant of the `injectRoutes` loop: a key is in the table iff it was in
the table at loop entry or has been buffered for injection this call; buffered
keys were absent at entry and are not in `originalAllowedIps`. -/
theorem injectLoop_keys (f : String → Bool) (orig : List String) (nd : String)
    (ttl now : Nat) (t0 : List (String × InjectedRoute)) (ips : List String) :
    ∀ acc : InjectAcc,
    (∀ k, (mget acc.tbl k).isSome = true ↔ ((mget t0 k).isSome = true ∨ k ∈ acc.inj)) →
    (∀ k ∈ acc.inj, mget t0 k = none) →
    (∀ k ∈ acc.inj, k ∉ orig) →
    ((∀ k, (mget (ips.foldl (injectStep f orig nd ttl now) acc).tbl k).isSome = true
        ↔ ((mget t0 k).isSome = true
            ∨ k ∈ (ips.foldl (injectStep f orig nd ttl now) acc).inj))
      ∧ (∀ k ∈ (ips.foldl (injectStep f orig nd ttl now) acc).inj, mget t0 k = none)
      ∧ (∀ k ∈ (ips.foldl (injectStep f orig nd ttl now) acc).inj, k ∉ orig)) := by
  induction ips with
  | nil => exact fun acc h1 h2 h3 => ⟨h1, h2, h3⟩
  | cons ip rest ih =>
    intro acc h1 h2 h3
    rw [List.foldl_cons]
    by_cases hc : f ip = true
    · exact ih _ (by simpa [injectStep, hc] using h1) (by simpa [injectStep, hc] using h2)
        (by simpa [injectStep, hc] using h3)
    · rw [injectStep, if_neg hc]
      rcases hg : mget acc.tbl (withMask ip) with _ | existing
      · by_cases ho : withMask ip ∈ orig
        · simp only [hg, if_pos ho]
          exact ih _ h1 h2 h3
        · simp only [hg, if_neg ho]
          have ht0 : mget t0 (withMask ip) = none := by
            have hiff := h1 (withMask ip)
            rw [hg] at hiff
            simp only [Option.isSome_none, Bool.false_eq_true, false_iff, not_or] at hiff
            rcases hm : mget t0 (withMask ip) with _ | v
            · rfl
            · exact absurd (by simp [hm]) hiff.1
          have hninj : withMask ip ∉ acc.inj := by
            have hiff := h1 (withMask ip)
            rw [hg] at hiff
            simp only [Option.isSome_none, Bool.false_eq_true, false_iff, not_or] at hiff
            exact hiff.2
          refine ih _ (fun k => ?_) (fun k hk => ?_) (fun k hk => ?_)
          · simp only
            rw [isSome_mget_mset]
            constructor
            · rintro (rfl | hin)
              · right
                simp
              · rcases (h1 k).mp hin with h | h
                · exact Or.inl h
                · right
                  simp [h]
            · rintro (ht | hin)
              · by_cases hk : k = withMask ip
                · exact Or.inl hk
                · exact Or.inr ((h1 k).mpr (Or.inl ht))
              · rcases List.mem_append.mp hin with h | h
                · exact Or.inr ((h1 k).mpr (Or.inr h))
                · exact Or.inl (by simpa using h)
          · rcases List.mem_append.mp hk with h | h
            · exact h2 k h
            · have hk' : k = withMask ip := by simpa using h
              rw [hk']
              exact ht0
          · rcases List.mem_append.mp hk with h | h
            · exact h3 k h
            · have hk' : k = withMask ip := by simpa using h
              rw [hk']
              exact ho
      · by_cases hd : existing.domain = nd
        · simp only [hg, if_pos hd]
          refine ih _ (fun k => ?_) h2 h3
          simp only
          rw [isSome_mget_mset]
          constructor
          · rintro (rfl | hin)
            · exact (h1 _).mp (by simp [hg])
            · exact (h1 k).mp hin
          · intro h
            exact Or.inr ((h1 k).mpr h)
        · simp only [hg, if_neg hd]
          exact ih _ h1 h2 h3

theorem bool_eq_of_iff {a b : Bool} (h : a = true ↔ b = true) : a = b := by
  cases a <;> cases b <;> simp_all

theorem cleanupPairStep_fst (l : List String) :
    ∀ (t : List (String × InjectedRoute)) (dm : List (String × List String)),
      (l.foldl cleanupPairStep (t, dm)).1 = l.foldl (fun t' ip => mdel t' ip) t := by
  induction l with
  | nil => intro t dm; rfl
  | cons x xs ih =>
    intro t dm
    rw [List.foldl_cons, List.foldl_cons]
    rw [show cleanupPairStep (t, dm) x = (mdel t x, (cleanupPairStep (t, dm) x).2) from rfl]
    exact ih (mdel t x) _

/-- Every tracked route's key is outside the `originalAllowedIps` snapshot. -/
def notInOriginal (s : RMState) : Prop :=
  ∀ k, (mget s.injectedRoutes k).isSome = true → k ∉ s.originalAllowedIps

/-- The states reachable by route-manager operations after `start` captured
the snapshot `orig` (with empty route tables, as at engine start). -/
inductive RMReach (orig : List String) : RMState → Prop where
  | init : RMReach orig ⟨[], [], orig, true⟩
  | inject (s : RMState) (f : String → Bool) (d : String) (ips : List String)
      (ttl now : Nat) (w : Bool) :
      RMReach orig s → RMReach orig (injectRoutes s f d ips ttl now w).1
  | removeForDomain (s : RMState) (d : String) (w : Bool) :
      RMReach orig s → RMReach orig (removeRoutesForDomain s d w).1
  | removeOne (s : RMState) (ip : String) (w : Bool) :
      RMReach orig s → RMReach orig (removeRoute s ip w).1
  | clearAll (s : RMState) (w : Bool) :
      RMReach orig s → RMReach orig (clearAllRoutes s w).1
  | cleanup (s : RMState) (now : Nat) (w : Bool) :
      RMReach orig s → RMReach orig (cleanupExpiredRoutes s now w).1
  | stopOp (s : RMState) (w : Bool) :
      RMReach orig s → RMReach orig (stopRM s w).1

theorem injectLoop_keys_start (s : RMState) (f : String → Bool) (d : String)
    (ips : List String) (ttl now : Nat) :
    (∀ k, (mget (injectLoopRun s f d ips ttl now).tbl k).isSome = true
        ↔ ((mget s.injectedRoutes k).isSome = true
            ∨ k ∈ (injectLoopRun s f d ips ttl now).inj))
    ∧ (∀ k ∈ (injectLoopRun s f d ips ttl now).inj, mget s.injectedRoutes k = none)
    ∧ (∀ k ∈ (injectLoopRun s f d ips ttl now).inj, k ∉ s.originalAllowedIps) :=
  injectLoop_keys f s.originalAllowedIps (lowerStr d) ttl now s.injectedRoutes ips
    ⟨s.injectedRoutes, s.domainToIps, [], []⟩
    (fun k => by simp) (by simp) (by simp)

theorem injectRoutes_preserves (s : RMState) (f : String → Bool) (d : String)
    (ips : List String) (ttl now : Nat) (w : Bool) (h : notInOriginal s) :
    notInOriginal (injectRoutes s f d ips ttl now w).1
    ∧ (injectRoutes s f d ips ttl now w).1.originalAllowedIps = s.originalAllowedIps := by
  obtain ⟨hk, hinj0, hinjorig⟩ := injectLoop_keys_start s f d ips ttl now
  rw [injectRoutes]
  by_cases he : (injectLoopRun s f d ips ttl now).inj.isEmpty
  · rw [if_pos he]
    refine ⟨?_, rfl⟩
    intro k hk2
    rcases (hk k).mp hk2 with hs | hi
    · exact h k hs
    · exact hinjorig k hi
  · rw [if_neg he]
    by_cases hw : w = true
    · rw [if_pos hw]
      refine ⟨?_, rfl⟩
      intro k hk2
      rw [show (injectRollback (injectLoopRun s f d ips ttl now) (lowerStr d)).1
          = (injectLoopRun s f d ips ttl now).inj.foldl (fun t k' => mdel t k')
              (injectLoopRun s f d ips ttl now).tbl from rfl] at hk2
      rw [mget_foldl_mdel] at hk2
      by_cases hmem : k ∈ (injectLoopRun s f d ips ttl now).inj
      · rw [if_pos hmem] at hk2
        simp at hk2
      · rw [if_neg hmem] at hk2
        rcases (hk k).mp hk2 with hs | hi
        · exact h k hs
        · exact hinjorig k hi
    · rw [if_neg hw]
      refine ⟨?_, rfl⟩
      intro k hk2
      rcases (hk k).mp hk2 with hs | hi
      · exact h k hs
      · exact hinjorig k hi

theorem removeRoutesForDomain_preserves (s : RMState) (d : String) (w : Bool)
    (h : notInOriginal s) :
    notInOriginal (removeRoutesForDomain s d w).1
    ∧ (removeRoutesForDomain s d w).1.originalAllowedIps = s.originalAllowedIps := by
  rw [removeRoutesForDomain]
  split
  · exact ⟨h, rfl⟩
  · split_ifs
    · exact ⟨h, rfl⟩
    · exact ⟨h, rfl⟩
    · refine ⟨?_, rfl⟩
      intro k hk2
      rw [mget_foldl_mdel] at hk2
      rename_i dips _ _ _
      by_cases hmem : k ∈ dips
      · rw [if_pos hmem] at hk2
        simp at hk2
      · rw [if_neg hmem] at hk2
        exact h k hk2

theorem removeRoute_preserves (s : RMState) (ip : String) (w : Bool)
    (h : notInOriginal s) :
    notInOriginal (removeRoute s ip w).1
    ∧ (removeRoute s ip w).1.originalAllowedIps = s.originalAllowedIps := by
  rw [removeRoute]
  split
  · exact ⟨h, rfl⟩
  · split_ifs
    · exact ⟨h, rfl⟩
    · refine ⟨?_, rfl⟩
      intro k hk2
      rw [mget_mdel] at hk2
      by_cases hmem : withMask ip = k
      · rw [if_pos hmem] at hk2
        simp at hk2
      · rw [if_neg hmem] at hk2
        exact h k hk2

theorem clearAllRoutes_preserves (s : RMState) (w : Bool) (h : notInOriginal s) :
    notInOriginal (clearAllRoutes s w).1
    ∧ (clearAllRoutes s w).1.originalAllowedIps = s.originalAllowedIps := by
  rw [clearAllRoutes]
  by_cases he : (s.injectedRoutes.map (·.1)).isEmpty
  · rw [if_pos he]
    exact ⟨h, rfl⟩
  · rw [if_neg he]
    by_cases hw : w = true
    · rw [if_pos hw]
      exact ⟨h, rfl⟩
    · rw [if_neg hw]
      refine ⟨?_, rfl⟩
      intro k hk2
      simp [mget] at hk2

theorem cleanupExpiredRoutes_preserves (s : RMState) (now : Nat) (w : Bool)
    (h : notInOriginal s) :
    notInOriginal (cleanupExpiredRoutes s now w).1
    ∧ (cleanupExpiredRoutes s now w).1.originalAllowedIps = s.originalAllowedIps := by
  rw [cleanupExpiredRoutes]
  by_cases he : (expiredIps s now).isEmpty
  · rw [if_pos he]
    exact ⟨h, rfl⟩
  · rw [if_neg he]
    by_cases hw : w = true
    · rw [if_pos hw]
      exact ⟨h, rfl⟩
    · rw [if_neg hw]
      refine ⟨?_, rfl⟩
      intro k hk2
      rw [show ((expiredIps s now).foldl cleanupPairStep (s.injectedRoutes, s.domainToIps)).1
          = (expiredIps s now).foldl (fun t' ip => mdel t' ip) s.injectedRoutes
          from cleanupPairStep_fst _ _ _] at hk2
      rw [mget_foldl_mdel] at hk2
      by_cases hmem : k ∈ expiredIps s now
      · rw [if_pos hmem] at hk2
        simp at hk2
      · rw [if_neg hmem] at hk2
        exact h k hk2

theorem stopRM_preserves (s : RMState) (w : Bool) (h : notInOriginal s) :
    notInOriginal (stopRM s w).1
    ∧ (stopRM s w).1.originalAllowedIps = s.originalAllowedIps := by
  have h' : notInOriginal { s with cleanupTimer := false } := h
  have hc := clearAllRoutes_preserves { s with cleanupTimer := false } w h'
  rw [stopRM]
  by_cases hok : (clearAllRoutes { s with cleanupTimer := false } w).2.2.2 = true
  · rw [if_pos hok]
    exact hc
  · rw [if_neg hok]
    exact hc

/-- The ip list handed to `addAllowedIps` by `injectRoutes` avoids the
original allowed-ips snapshot, unconditionally. -/
theorem injectRoutes_wgIps_not_in_original (s : RMState) (f : String → Bool)
    (d : String) (ips : List String) (ttl now : Nat) (w : Bool) :
    ∀ x ∈ (injectRoutes s f d ips ttl now w).2.2.1, x ∉ s.originalAllowedIps := by
  obtain ⟨_, _, hinjorig⟩ := injectLoop_keys_start s f d ips ttl now
  rw [injectRoutes]
  by_cases he : (injectLoopRun s f d ips ttl now).inj.isEmpty
  · rw [if_pos he]
    intro x hx
    simp at hx
  · rw [if_neg he]
    by_cases hw : w = true
    · rw [if_pos hw]
      exact hinjorig
    · rw [if_neg hw]
      exact hinjorig

/--
C4. After `start` has captured `originalAllowedIps`, along every sequence of
route-manager operations no tracked `ip_cidr` is ever an element of the
snapshot, and `injectRoutes` never passes an address of the snapshot to the
VPN adapter's `addAllowedIps`.
-/
theorem injected_routes_not_in_original (orig : List String) (s : RMState)
    (h : RMReach orig s) :
    (∀ k, (mget s.injectedRoutes k).isSome = true → k ∉ s.originalAllowedIps)
    ∧ (∀ (f : String → Bool) (d : String) (ips : List String) (ttl now : Nat)
        (w : Bool) (x : String),
          x ∈ (injectRoutes s f d ips ttl now w).2.2.1 → x ∉ s.originalAllowedIps) := by
  have ha : notInOriginal s := by
    induction h with
    | init =>
      intro k hk
      simp [mget] at hk
    | inject s f d ips ttl now w hr ih => exact (injectRoutes_preserves s f d ips ttl now w ih).1
    | removeForDomain s d w hr ih => exact (removeRoutesForDomain_preserves s d w ih).1
    | removeOne s ip w hr ih => exact (removeRoute_preserves s ip w ih).1
    | clearAll s w hr ih => exact (clearAllRoutes_preserves s w ih).1
    | cleanup s now w hr ih => exact (cleanupExpiredRoutes_preserves s now w ih).1
    | stopOp s w hr ih => exact (stopRM_preserves s w ih).1
  exact ⟨ha, fun f d ips ttl now w x hx =>
    injectRoutes_wgIps_not_in_original s f d ips ttl now w x hx⟩

/-- Witness for C4: from a freshly started state whose snapshot holds
`10.0.0.0/24`, injecting `1.2.3.4` passes `1.2.3.4/32` to the adapter, and the
theorem certifies it is outside the snapshot. -/
theorem injected_routes_not_in_original_witness :
    "1.2.3.4/32"
      ∈ (injectRoutes ⟨[], [], ["10.0.0.0/24"], true⟩ (fun _ => false) "d"
          ["1.2.3.4"] 300 0 false).2.2.1
    ∧ "1.2.3.4/32" ∉ (⟨[], [], ["10.0.0.0/24"], true⟩ : RMState).originalAllowedIps :=
  ⟨by decide,
   (injected_routes_not_in_original ["10.0.0.0/24"] _ RMReach.init).2
     (fun _ => false) "d" ["1.2.3.4"] 300 0 false "1.2.3.4/32" (by decide)⟩

/--
C3. An input ip with `hasConflict(ip) = true` is skipped by `injectRoutes`
(for a conflict predicate consistent across `/32` normalization): its
`route-skipped {reason: conflict}` event is emitted, its route-table entry is
untouched, and its `/32` form is not among the addresses passed to the VPN
adapter's `addAllowedIps`.
-/
theorem conflicting_ip_skipped (s : RMState) (f : String → Bool) (d : String)
    (ips : List String) (ttl now : Nat) (w : Bool) (ip : String)
    (hmem : ip ∈ ips) (hconf : f ip = true)
    (hcons : ∀ a b : String, withMask a = withMask b → f a = f b) :
    RMEvent.routeSkipped ip (lowerStr d) "conflict"
        ∈ (injectRoutes s f d ips ttl now w).2.1
    ∧ mget (injectRoutes s f d ips ttl now w).1.injectedRoutes (withMask ip)
        = mget s.injectedRoutes (withMask ip)
    ∧ withMask ip ∉ (injectRoutes s f d ips ttl now w).2.2.1 := by
  have hev := injectLoop_skip_event f s.originalAllowedIps (lowerStr d) ttl now ips
    ⟨s.injectedRoutes, s.domainToIps, [], []⟩ ip hmem hconf
  obtain ⟨htbl, hinj⟩ := injectLoop_conflict_key f s.originalAllowedIps (lowerStr d)
    ttl now ip hconf hcons ips ⟨s.injectedRoutes, s.domainToIps, [], []⟩
  have hnotinj : withMask ip ∉ (injectLoopRun s f d ips ttl now).inj := by
    intro hmem2
    have := hinj.mp hmem2
    simp at this
  rw [injectRoutes]
  by_cases he : (injectLoopRun s f d ips ttl now).inj.isEmpty
  · rw [if_pos he]
    exact ⟨hev, htbl, by simp⟩
  · rw [if_neg he]
    by_cases hw : w = true
    · rw [if_pos hw]
      refine ⟨hev, ?_, hnotinj⟩
      rw [show (injectRollback (injectLoopRun s f d ips ttl now) (lowerStr d)).1
          = (injectLoopRun s f d ips ttl now).inj.foldl (fun t k' => mdel t k')
              (injectLoopRun s f d ips ttl now).tbl from rfl]
      rw [mget_foldl_mdel, if_neg hnotinj]
      exact htbl
    · rw [if_neg hw]
      exact ⟨List.mem_append.mpr (Or.inl hev), htbl, hnotinj⟩

/-- Witness for C3: a concrete conflicting ip is skipped with its event. -/
theorem conflicting_ip_skipped_witness :
    RMEvent.routeSkipped "9.9.9.9" (lowerStr "Example.COM") "conflict"
      ∈ (injectRoutes ⟨[], [], [], true⟩ (fun _ => true) "Example.COM"
          ["9.9.9.9"] 300 0 false).2.1 :=
  (conflicting_ip_skipped ⟨[], [], [], true⟩ (fun _ => true) "Example.COM"
    ["9.9.9.9"] 300 0 false "9.9.9.9" (by decide) rfl (fun _ _ _ => rfl)).1

/--
C6 counterexample: a failing `addAllowedIps` during `injectRoutes` from the
empty state leaves a residue — the domain key `"d"` remains in the
domain-to-IPs map with an empty ip set — so the route tables are NOT exactly
as they were before the call, contradicting the claim's "the route tables are
as they were before the call".
-/
theorem injectRoutes_rollback_residue :
    ((injectRoutes ⟨[], [], [], true⟩ (fun _ => false) "d" ["1.2.3.4"] 300 0 true).1.domainToIps
        = [("d", [])])
    ∧ (injectRoutes ⟨[], [], [], true⟩ (fun _ => false) "d" ["1.2.3.4"] 300 0 true).1
        ≠ ⟨[], [], [], true⟩
    ∧ (injectRoutes ⟨[], [], [], true⟩ (fun _ => false) "d" ["1.2.3.4"] 300 0 true).2.2.2
        = false :=
  ⟨by decide, by decide, by decide⟩

/--
C6 (amended). If the `addAllowedIps` call made by `injectRoutes` fails, every
route-table entry provisionally inserted during the call is removed again —
the set of tracked `ip_cidr` keys equals the set before the call — and the
error is surfaced to the caller; the tables need not be bit-for-bit identical
to before (a TTL refresh of an existing same-domain route persists, and an
emptied per-domain ip set may remain in the domain map).
-/
theorem injectRoutes_rollback (s : RMState) (f : String → Bool) (d : String)
    (ips : List String) (ttl now : Nat) :
    ((injectRoutes s f d ips ttl now true).2.2.1 ≠ [] →
        (injectRoutes s f d ips ttl now true).2.2.2 = false)
    ∧ (∀ k, (mget (injectRoutes s f d ips ttl now true).1.injectedRoutes k).isSome
          = (mget s.injectedRoutes k).isSome)
    ∧ (injectRoutes s f d ips ttl now true).1.originalAllowedIps
        = s.originalAllowedIps := by
  obtain ⟨hk, hinj0, _⟩ := injectLoop_keys_start s f d ips ttl now
  rw [injectRoutes]
  by_cases he : (injectLoopRun s f d ips ttl now).inj.isEmpty
  · rw [if_pos he]
    refine ⟨fun hne => absurd rfl hne, ?_, rfl⟩
    intro k
    have hinjnil : (injectLoopRun s f d ips ttl now).inj = [] := by
      simpa using he
    have hiff := hk k
    rw [hinjnil] at hiff
    simp only [List.not_mem_nil, or_false] at hiff
    exact bool_eq_of_iff hiff
  · rw [if_neg he, if_pos rfl]
    refine ⟨fun _ => rfl, ?_, rfl⟩
    intro k
    rw [show (injectRollback (injectLoopRun s f d ips ttl now) (lowerStr d)).1
        = (injectLoopRun s f d ips ttl now).inj.foldl (fun t k' => mdel t k')
            (injectLoopRun s f d ips ttl now).tbl from rfl]
    rw [mget_foldl_mdel]
    by_cases hmem : k ∈ (injectLoopRun s f d ips ttl now).inj
    · rw [if_pos hmem, hinj0 k hmem]
    · rw [if_neg hmem]
      have hiff := hk k
      simp only [hmem, or_false] at hiff
      exact bool_eq_of_iff hiff

/-- Witness for C6: a failed injection over a one-entry table with a fresh ip
leaves exactly the original key set. -/
theorem injectRoutes_rollback_witness :
    (mget (injectRoutes ⟨[("5.6.7.8/32", ⟨"5.6.7.8/32", "d", 0, 300, 300000⟩)],
          [("d", ["5.6.7.8/32"])], [], true⟩
        (fun _ => false) "d" ["1.2.3.4"] 300 0 true).1.injectedRoutes
      "1.2.3.4/32").isSome
    = (mget
        ((⟨[("5.6.7.8/32", ⟨"5.6.7.8/32", "d", 0, 300, 300000⟩)],
          [("d", ["5.6.7.8/32"])], [], true⟩ : RMState)).injectedRoutes
      "1.2.3.4/32").isSome :=
  (injectRoutes_rollback ⟨[("5.6.7.8/32", ⟨"5.6.7.8/32", "d", 0, 300, 300000⟩)],
      [("d", ["5.6.7.8/32"])], [], true⟩
    (fun _ => false) "d" ["1.2.3.4"] 300 0).2.1 "1.2.3.4/32"

/--
C9 counterexample: `stop()` with a failing VPN removal does NOT clear the
route tables — the tracked route is still present afterwards — contradicting
the claim's "the route tables are cleared anyway".
-/
theorem stopRM_does_not_clear_on_failure :
    ((stopRM ⟨[("1.2.3.4/32", ⟨"1.2.3.4/32", "d", 0, 300, 300000⟩)],
          [("d", ["1.2.3.4/32"])], [], true⟩ true).1.injectedRoutes
        = [("1.2.3.4/32", ⟨"1.2.3.4/32", "d", 0, 300, 300000⟩)])
    ∧ (stopRM ⟨[("1.2.3.4/32", ⟨"1.2.3.4/32", "d", 0, 300, 300000⟩)],
          [("d", ["1.2.3.4/32"])], [], true⟩ true).2.2.2 = false :=
  ⟨by decide, by decide⟩

/--
C9 (amended). `stop()` cancels the cleanup tick and asks the VPN adapter to
remove every tracked route. If that removal call fails, the error is surfaced
to the caller and the route tables are left unchanged (the routes remain
tracked); when it succeeds — or there was nothing to remove — `stop()`
completes normally, and a successful removal leaves both tables empty.
-/
theorem stopRM_spec (s : RMState) (w : Bool) :
    (stopRM s w).1.cleanupTimer = false
    ∧ (s.injectedRoutes ≠ [] → (stopRM s w).2.2.1 = s.injectedRoutes.map (·.1))
    ∧ (s.injectedRoutes ≠ [] → w = true →
        (stopRM s w).2.2.2 = false
        ∧ (stopRM s w).1.injectedRoutes = s.injectedRoutes
        ∧ (stopRM s w).1.domainToIps = s.domainToIps)
    ∧ (w = false →
        (stopRM s w).2.2.2 = true
        ∧ (s.injectedRoutes ≠ [] →
            (stopRM s w).1.injectedRoutes = [] ∧ (stopRM s w).1.domainToIps = []))
    ∧ (s.injectedRoutes = [] → (stopRM s w).1 = { s with cleanupTimer := false }) := by
  cases hs : s.injectedRoutes with
  | nil =>
    refine ⟨?_, ?_, ?_, ?_, ?_⟩ <;>
      simp [stopRM, clearAllRoutes, hs]
  | cons e rest =>
    by_cases hw : w = true
    · subst hw
      refine ⟨?_, ?_, ?_, ?_, ?_⟩ <;>
        simp [stopRM, clearAllRoutes, hs]
    · have hw' : w = false := by
        cases w
        · rfl
        · exact absurd rfl hw
      subst hw'
      refine ⟨?_, ?_, ?_, ?_, ?_⟩ <;>
        simp [stopRM, clearAllRoutes, hs]

/-- Witness for C9: concrete failing stop leaves the route tracked; concrete
successful stop empties the tables. -/
theorem stopRM_spec_witness :
    ((stopRM ⟨[("1.2.3.4/32", ⟨"1.2.3.4/32", "d", 0, 300, 300000⟩)],
          [("d", ["1.2.3.4/32"])], [], true⟩ true).1.injectedRoutes
        = [("1.2.3.4/32", ⟨"1.2.3.4/32", "d", 0, 300, 300000⟩)])
    ∧ (stopRM ⟨[("1.2.3.4/32", ⟨"1.2.3.4/32", "d", 0, 300, 300000⟩)],
          [("d", ["1.2.3.4/32"])], [], false⟩ false).1.injectedRoutes = [] :=
  ⟨((stopRM_spec ⟨[("1.2.3.4/32", ⟨"1.2.3.4/32", "d", 0, 300, 300000⟩)],
        [("d", ["1.2.3.4/32"])], [], true⟩ true).2.2.1 (by decide) rfl).2.1,
   (((stopRM_spec ⟨[("1.2.3.4/32", ⟨"1.2.3.4/32", "d", 0, 300, 300000⟩)],
        [("d", ["1.2.3.4/32"])], [], false⟩ false).2.2.2.1 rfl).2 (by decide)).1⟩

/-! ## VPN adapter (`src/main/wireguard.ts`)

`WireGuard.addAllowedIps` resolves the configured interface and peer (failing
before any mutation if they are missing) and then rewrites the peer's
allowed-ips list. The rewrite itself is modelled here as a function of the
peer's current `allowedIps` and the input list; `none` means no
`wg set … allowed-ips` command is issued at all. -/

/-- The `newIps` computed by `addAllowedIps`: each input normalized to `/32`,
keeping those not already among the peer's allowed-ips (duplicates in the
input are kept — membership is tested against the initial set only). -/
def newIpsOf (existing ips : List String) : List String :=
  (ips.map withMask).filter (fun k => ¬ (k ∈ existing))

/-- `WireGuard.addAllowedIps` (the mutation step): `none` when nothing is to
be added (no command issued), otherwise the full list written back via
`setAllowedIps`. -/
def addAllowedIps (existing ips : List String) : Option (List String) :=
  if (newIpsOf existing ips).isEmpty then none
  else some (existing ++ newIpsOf existing ips)

/--
C10. `addAllowedIps` never removes or alters existing allowed-ips entries:
when it writes, the list written back is exactly the peer's current
allowed-ips followed by the `/32`-normalized inputs not already present (so
the current list is a prefix of what is written), and no `wg set` command is
issued precisely when every input address is already present.
-/
theorem addAllowedIps_frame (existing ips : List String) :
    (addAllowedIps existing ips = none ↔ ∀ ip ∈ ips, withMask ip ∈ existing)
    ∧ (newIpsOf existing ips ≠ [] →
        addAllowedIps existing ips = some (existing ++ newIpsOf existing ips))
    ∧ (∀ written, addAllowedIps existing ips = some written →
        ∃ rest, written = existing ++ rest)
    ∧ (∀ k ∈ newIpsOf existing ips, k ∉ existing) := by
  have hnil : newIpsOf existing ips = [] ↔ ∀ ip ∈ ips, withMask ip ∈ existing := by
    rw [newIpsOf, List.filter_eq_nil_iff]
    constructor
    · intro h ip hip
      have := h (withMask ip) (List.mem_map_of_mem _ hip)
      simpa using this
    · intro h k hk
      rw [List.mem_map] at hk
      obtain ⟨ip, hip, rfl⟩ := hk
      simpa using h ip hip
  refine ⟨?_, ?_, ?_, ?_⟩
  · rw [addAllowedIps]
    by_cases he : (newIpsOf existing ips).isEmpty
    · rw [if_pos he]
      simp only [true_iff]
      exact hnil.mp (by simpa using he)
    · rw [if_neg he]
      constructor
      · intro h
        exact absurd h (by simp)
      · intro hall
        exact absurd (hnil.mpr hall) (by simpa using he)
  · intro hne
    rw [addAllowedIps, if_neg (by simpa using hne)]
  · intro written hw
    rw [addAllowedIps] at hw
    by_cases he : (newIpsOf existing ips).isEmpty
    · rw [if_pos he] at hw
      exact absurd hw (by simp)
    · rw [if_neg he] at hw
      exact ⟨newIpsOf existing ips, (Option.some.injEq _ _ ▸ hw).symm⟩
  · intro k hk
    rw [newIpsOf, List.mem_filter] at hk
    simpa using hk.2

/-- Witness for C10: a concrete call adds only the missing `/32` and keeps the
existing list as a prefix; a call whose inputs are all present issues no
command. -/
theorem addAllowedIps_frame_witness :
    addAllowedIps ["10.0.0.1/32"] ["10.0.0.1", "1.2.3.4"]
        = some ["10.0.0.1/32", "1.2.3.4/32"]
    ∧ addAllowedIps ["10.0.0.1/32"] ["10.0.0.1"] = none :=
  ⟨by
    have h := (addAllowedIps_frame ["10.0.0.1/32"] ["10.0.0.1", "1.2.3.4"]).2.1
      (by decide)
    rw [h]
    decide,
   (addAllowedIps_frame ["10.0.0.1/32"] ["10.0.0.1"]).1.mpr (by decide)⟩

/-! ## Conflict detector (`src/main/conflict-detector.ts`)

`Date.now()` is an explicit `now` argument. Each mutating operation returns
the new state and the events it emits (plus the conflict value the source
returns, where it returns one). -/

structure DomainIpMapping where
  domain : String
  ip : String
  tunnel : Bool
  timestamp : Nat
deriving DecidableEq, Repr

structure IpConflict where
  ip : String
  tunnelDomains : List String
  directDomains : List String
  detectedAt : Nat
deriving DecidableEq, Repr

inductive CDEvent where
  | conflictDetected (c : IpConflict)
  | conflictResolved (ip : String)
deriving DecidableEq, Repr

structure CDState where
  ipToDomains : List (String × List DomainIpMapping)
  domainToIps : List (String × List String)
  conflicts : List (String × IpConflict)
  mappingTtl : Nat
deriving DecidableEq, Repr

/-- The constructor: `ttlMs` is used only when truthy, else 5 minutes. -/
def mkConflictDetector (ttlMs : Nat) : CDState :=
  ⟨[], [], [], if ttlMs ≠ 0 then ttlMs else 5 * 60 * 1000⟩

/-- `ConflictDetector.hasConflict`. -/
def hasConflict (s : CDState) (ip : String) : Bool :=
  (mget s.conflicts ip).isSome

/-- `now - m.timestamp < mappingTtl` (the JS comparison; for the positive TTLs
the constructor produces, truncated Nat subtraction agrees with it). -/
def freshAt (ttl now : Nat) (m : DomainIpMapping) : Bool :=
  now - m.timestamp < ttl

/-- `mappings.filter((m) => now - m.timestamp < this.mappingTtl)`. -/
def validOf (ttl now : Nat) (mappings : List DomainIpMapping) : List DomainIpMapping :=
  mappings.filter (freshAt ttl now)

/-- The tunnel-classified domains of a mapping list. -/
def tunnelDomainsOf (l : List DomainIpMapping) : List String :=
  (l.filter (fun m => m.tunnel)).map (fun m => m.domain)

/-- The direct-classified domains of a mapping list. -/
def directDomainsOf (l : List DomainIpMapping) : List String :=
  (l.filter (fun m => ¬ m.tunnel)).map (fun m => m.domain)

/-- `tunnelDomains.length > 0 && directDomains.length > 0`. -/
def bothClasses (l : List DomainIpMapping) : Bool :=
  ¬ (tunnelDomainsOf l).isEmpty ∧ ¬ (directDomainsOf l).isEmpty

/-- `[...new Set(xs)]`: deduplicate keeping first occurrences. -/
def dedup (l : List String) : List String := l.foldl sadd []

/-- The conflict value built by `checkForConflict`. -/
def mkIpConflict (ip : String) (valid : List DomainIpMapping) (now : Nat) : IpConflict :=
  ⟨ip, dedup (tunnelDomainsOf valid), dedup (directDomainsOf valid), now⟩

/-- The `conflict-resolved`-if-present epilogue of `checkForConflict`. -/
def resolveIfPresent (s : CDState) (ip : String) :
    CDState × List CDEvent × Option IpConflict :=
  if hasConflict s ip then
    ({ s with conflicts := mdel s.conflicts ip }, [.conflictResolved ip], none)
  else (s, [], none)

/-- `ConflictDetector.checkForConflict`. -/
def checkForConflict (s : CDState) (ip : String) (now : Nat) :
    CDState × List CDEvent × Option IpConflict :=
  match mget s.ipToDomains ip with
  | none => resolveIfPresent s ip
  | some mappings =>
    if mappings.length < 2 then resolveIfPresent s ip
    else
      if (validOf s.mappingTtl now mappings).length < 2 then
        resolveIfPresent
          { s with ipToDomains := mset s.ipToDomains ip (validOf s.mappingTtl now mappings) }
          ip
      else
        if bothClasses (validOf s.mappingTtl now mappings) then
          ({ s with
              ipToDomains := mset s.ipToDomains ip (validOf s.mappingTtl now mappings)
              conflicts := (mset s.conflicts ip
                (mkIpConflict ip (validOf s.mappingTtl now mappings) now)) },
           (if hasConflict s ip then []
            else [.conflictDetected (mkIpConflict ip (validOf s.mappingTtl now mappings) now)]),
           some (mkIpConflict ip (validOf s.mappingTtl now mappings) now))
        else
          resolveIfPresent
            { s with ipToDomains := mset s.ipToDomains ip (validOf s.mappingTtl now mappings) }
            ip

/-- `ConflictDetector.recordMapping`: replace the (ip, domain) mapping with a
fresh one, update both indices, then re-evaluate the ip. -/
def recordMapping (s : CDState) (domain ip : String) (tunnel : Bool) (now : Nat) :
    CDState × List CDEvent × Option IpConflict :=
  checkForConflict
    { s with
        ipToDomains := (mset s.ipToDomains ip
          (((mget s.ipToDomains ip).getD []).filter
              (fun m => ¬ (m.domain = lowerStr domain))
            ++ [⟨lowerStr domain, ip, tunnel, now⟩]))
        domainToIps := (mset s.domainToIps (lowerStr domain)
          (sadd ((mget s.domainToIps (lowerStr domain)).getD []) ip)) }
    ip now

/-- `ConflictDetector.recordMappings`. -/
def recordMappings (s : CDState) (domain : String) (ips : List String)
    (tunnel : Bool) (now : Nat) : CDState × List CDEvent × List IpConflict :=
  ips.foldl
    (fun acc ip =>
      ((recordMapping acc.1 domain ip tunnel now).1,
       acc.2.1 ++ (recordMapping acc.1 domain ip tunnel now).2.1,
       acc.2.2 ++ (recordMapping acc.1 domain ip tunnel now).2.2.toList))
    (s, [], [])

/-- One iteration of the first loop of `cleanupStale`, over the entry
`(ip, mappings)` captured at iteration time. -/
def cleanupStaleStep (now : Nat) (acc : CDState × List CDEvent)
    (e : String × List DomainIpMapping) : CDState × List CDEvent :=
  if (validOf acc.1.mappingTtl now e.2).isEmpty then
    if hasConflict acc.1 e.1 then
      ({ acc.1 with
          ipToDomains := mdel acc.1.ipToDomains e.1
          conflicts := mdel acc.1.conflicts e.1 },
       acc.2 ++ [.conflictResolved e.1])
    else ({ acc.1 with ipToDomains := mdel acc.1.ipToDomains e.1 }, acc.2)
  else if ¬ ((validOf acc.1.mappingTtl now e.2).length = e.2.length) then
    ((checkForConflict
        { acc.1 with
            ipToDomains := mset acc.1.ipToDomains e.1 (validOf acc.1.mappingTtl now e.2) }
        e.1 now).1,
     acc.2 ++ (checkForConflict
        { acc.1 with
            ipToDomains := mset acc.1.ipToDomains e.1 (validOf acc.1.mappingTtl now e.2) }
        e.1 now).2.1)
  else acc

/-- One iteration of the second loop of `cleanupStale`: prune the domain's ip
set to the ips still carrying a mapping for the domain. -/
def cleanupDomainsStep (tbl : List (String × List DomainIpMapping))
    (dm : List (String × List String)) (e : String × List String) :
    List (String × List String) :=
  if (e.2.filter (fun ip => ((mget tbl ip).getD []).any (fun m => m.domain = e.1))).isEmpty
  then mdel dm e.1
  else mset dm e.1 (e.2.filter (fun ip => ((mget tbl ip).getD []).any (fun m => m.domain = e.1)))

/-- The first loop of `cleanupStale` (prune mapping lists, recompute
conflicts) (state and events). -/
def cleanupFirstLoop (s : CDState) (now : Nat) : CDState × List CDEvent :=
  s.ipToDomains.foldl (cleanupStaleStep now) (s, [])

/-- `ConflictDetector.cleanupStale`. -/
def cleanupStale (s : CDState) (now : Nat) : CDState × List CDEvent :=
  (⟨(cleanupFirstLoop s now).1.ipToDomains,
    s.domainToIps.foldl
      (cleanupDomainsStep (cleanupFirstLoop s now).1.ipToDomains) s.domainToIps,
    (cleanupFirstLoop s now).1.conflicts,
    (cleanupFirstLoop s now).1.mappingTtl⟩,
   (cleanupFirstLoop s now).2)

/-- One iteration of `removeDomain`'s per-ip loop. -/
def removeDomainStep (nd : String) (now : Nat) (acc : CDState × List CDEvent)
    (ip : String) : CDState × List CDEvent :=
  if (((mget acc.1.ipToDomains ip).getD []).filter (fun m => ¬ (m.domain = nd))).isEmpty then
    if hasConflict acc.1 ip then
      ({ acc.1 with
          ipToDomains := mdel acc.1.ipToDomains ip
          conflicts := mdel acc.1.conflicts ip },
       acc.2 ++ [.conflictResolved ip])
    else ({ acc.1 with ipToDomains := mdel acc.1.ipToDomains ip }, acc.2)
  else
    ((checkForConflict
        { acc.1 with
            ipToDomains := (mset acc.1.ipToDomains ip
              (((mget acc.1.ipToDomains ip).getD []).filter (fun m => ¬ (m.domain = nd)))) }
        ip now).1,
     acc.2 ++ (checkForConflict
        { acc.1 with
            ipToDomains := (mset acc.1.ipToDomains ip
              (((mget acc.1.ipToDomains ip).getD []).filter (fun m => ¬ (m.domain = nd)))) }
        ip now).2.1)

/-- `ConflictDetector.removeDomain`. -/
def removeDomain (s : CDState) (domain : String) (now : Nat) :
    CDState × List CDEvent :=
  match mget s.domainToIps (lowerStr domain) with
  | none => (s, [])
  | some ips =>
    (⟨(ips.foldl (removeDomainStep (lowerStr domain) now) (s, [])).1.ipToDomains,
      mdel (ips.foldl (removeDomainStep (lowerStr domain) now) (s, [])).1.domainToIps
        (lowerStr domain),
      (ips.foldl (removeDomainStep (lowerStr domain) now) (s, [])).1.conflicts,
      (ips.foldl (removeDomainStep (lowerStr domain) now) (s, [])).1.mappingTtl⟩,
     (ips.foldl (removeDomainStep (lowerStr domain) now) (s, [])).2)

/-- `ConflictDetector.clear`. -/
def clearCD (s : CDState) : CDState × List CDEvent :=
  ({ s with ipToDomains := [], domainToIps := [], conflicts := [] },
   s.conflicts.map (fun e => .conflictResolved e.1))

/-- The claim's condition on an ip: among the stored mappings for the ip that
are fresh at `now`, at least one tunnel-classified and at least one
direct-classified domain appear. -/
def freshBoth (s : CDState) (now : Nat) (ip : String) : Bool :=
  bothClasses (validOf s.mappingTtl now ((mget s.ipToDomains ip).getD []))

/-! ### Conflict-detector lemmas -/

theorem bothClasses_nil : bothClasses [] = false := by decide

theorem bothClasses_single (m : DomainIpMapping) : bothClasses [m] = false := by
  by_cases hm : m.tunnel = true <;>
    simp [bothClasses, tunnelDomainsOf, directDomainsOf, List.filter_cons, hm]

theorem bothClasses_short {l : List DomainIpMapping} (h : l.length < 2) :
    bothClasses l = false := by
  cases l with
  | nil => exact bothClasses_nil
  | cons a t =>
    cases t with
    | nil => exact bothClasses_single a
    | cons b t' =>
      exfalso
      simp at h
      omega

theorem validOf_idem (ttl now : Nat) (l : List DomainIpMapping) :
    validOf ttl now (validOf ttl now l) = validOf ttl now l :=
  List.filter_eq_self.mpr (fun m hm => List.of_mem_filter hm)

theorem validOf_of_fresh {ttl now : Nat} {l : List DomainIpMapping}
    (h : ∀ m ∈ l, freshAt ttl now m = true) : validOf ttl now l = l :=
  List.filter_eq_self.mpr h

theorem validOf_all_fresh (ttl now : Nat) (l : List DomainIpMapping) :
    ∀ m ∈ validOf ttl now l, freshAt ttl now m = true :=
  fun _ hm => List.of_mem_filter hm

theorem freshAt_mono {ttl t now : Nat} {m : DomainIpMapping} (h1 : t ≤ now)
    (h2 : freshAt ttl now m = true) : freshAt ttl t m = true := by
  simp [freshAt] at h2 ⊢
  omega

theorem resolveIfPresent_tbl (s : CDState) (ip : String) :
    (resolveIfPresent s ip).1.ipToDomains = s.ipToDomains := by
  rw [resolveIfPresent]
  split <;> rfl

theorem resolveIfPresent_dmap (s : CDState) (ip : String) :
    (resolveIfPresent s ip).1.domainToIps = s.domainToIps := by
  rw [resolveIfPresent]
  split <;> rfl

theorem resolveIfPresent_ttl (s : CDState) (ip : String) :
    (resolveIfPresent s ip).1.mappingTtl = s.mappingTtl := by
  rw [resolveIfPresent]
  split <;> rfl

theorem resolveIfPresent_self (s : CDState) (ip : String) :
    hasConflict (resolveIfPresent s ip).1 ip = false := by
  rw [resolveIfPresent]
  by_cases h : hasConflict s ip = true
  · rw [if_pos h]
    simp [hasConflict, mget_mdel_self]
  · rw [if_neg h]
    simpa using h

theorem resolveIfPresent_other (s : CDState) (ip ip' : String) (h : ip' ≠ ip) :
    mget (resolveIfPresent s ip).1.conflicts ip' = mget s.conflicts ip' := by
  rw [resolveIfPresent]
  split
  · exact mget_mdel_ne _ _ _ (fun hh => h hh.symm)
  · rfl

theorem resolveIfPresent_events (s : CDState) (ip : String) :
    (resolveIfPresent s ip).2.1
      = if hasConflict s ip = true then [CDEvent.conflictResolved ip] else [] := by
  rw [resolveIfPresent]
  by_cases h : hasConflict s ip = true
  · simp [h]
  · simp [h]

theorem checkForConflict_dmap (s : CDState) (ip : String) (now : Nat) :
    (checkForConflict s ip now).1.domainToIps = s.domainToIps := by
  rw [checkForConflict]
  rcases hg : mget s.ipToDomains ip with _ | mappings
  · exact resolveIfPresent_dmap s ip
  · simp only
    by_cases h1 : mappings.length < 2
    · rw [if_pos h1]
      exact resolveIfPresent_dmap s ip
    · rw [if_neg h1]
      by_cases h2 : (validOf s.mappingTtl now mappings).length < 2
      · rw [if_pos h2]
        exact resolveIfPresent_dmap _ ip
      · rw [if_neg h2]
        by_cases h3 : bothClasses (validOf s.mappingTtl now mappings) = true
        · rw [if_pos h3]
        · rw [if_neg h3]
          exact resolveIfPresent_dmap _ ip

theorem checkForConflict_ttl (s : CDState) (ip : String) (now : Nat) :
    (checkForConflict s ip now).1.mappingTtl = s.mappingTtl := by
  rw [checkForConflict]
  rcases hg : mget s.ipToDomains ip with _ | mappings
  · exact resolveIfPresent_ttl s ip
  · simp only
    by_cases h1 : mappings.length < 2
    · rw [if_pos h1]
      exact resolveIfPresent_ttl s ip
    · rw [if_neg h1]
      by_cases h2 : (validOf s.mappingTtl now mappings).length < 2
      · rw [if_pos h2]
        exact resolveIfPresent_ttl _ ip
      · rw [if_neg h2]
        by_cases h3 : bothClasses (validOf s.mappingTtl now mappings) = true
        · rw [if_pos h3]
        · rw [if_neg h3]
          exact resolveIfPresent_ttl _ ip

theorem checkForConflict_other (s : CDState) (ip : String) (now : Nat) (ip' : String)
    (h : ip' ≠ ip) :
    mget (checkForConflict s ip now).1.ipToDomains ip' = mget s.ipToDomains ip'
    ∧ mget (checkForConflict s ip now).1.conflicts ip' = mget s.conflicts ip' := by
  have hms : ∀ v, mget (mset s.ipToDomains ip v) ip' = mget s.ipToDomains ip' :=
    fun v => mget_mset_ne _ _ _ _ (fun hh => h hh.symm)
  rw [checkForConflict]
  rcases hg : mget s.ipToDomains ip with _ | mappings
  · exact ⟨by rw [resolveIfPresent_tbl], resolveIfPresent_other s ip ip' h⟩
  · simp only
    by_cases h1 : mappings.length < 2
    · rw [if_pos h1]
      exact ⟨by rw [resolveIfPresent_tbl], resolveIfPresent_other s ip ip' h⟩
    · rw [if_neg h1]
      by_cases h2 : (validOf s.mappingTtl now mappings).length < 2
      · rw [if_pos h2]
        refine ⟨?_, resolveIfPresent_other _ ip ip' h⟩
        rw [resolveIfPresent_tbl]
        exact hms _
      · rw [if_neg h2]
        by_cases h3 : bothClasses (validOf s.mappingTtl now mappings) = true
        · rw [if_pos h3]
          exact ⟨hms _, mget_mset_ne _ _ _ _ (fun hh => h hh.symm)⟩
        · rw [if_neg h3]
          refine ⟨?_, resolveIfPresent_other _ ip ip' h⟩
          rw [resolveIfPresent_tbl]
          exact hms _

theorem checkForConflict_self (s : CDState) (ip : String) (now : Nat) :
    hasConflict (checkForConflict s ip now).1 ip
      = freshBoth (checkForConflict s ip now).1 now ip := by
  rw [checkForConflict]
  rcases hg : mget s.ipToDomains ip with _ | mappings
  · rw [resolveIfPresent_self, freshBoth, resolveIfPresent_tbl, resolveIfPresent_ttl, hg]
    simp [validOf, bothClasses_nil]
  · simp only
    by_cases h1 : mappings.length < 2
    · rw [if_pos h1]
      rw [resolveIfPresent_self, freshBoth, resolveIfPresent_tbl, resolveIfPresent_ttl, hg]
      have hb : bothClasses (validOf s.mappingTtl now mappings) = false :=
        bothClasses_short (lt_of_le_of_lt (List.length_filter_le _ _) h1)
      simp only [Option.getD_some]
      rw [hb]
    · rw [if_neg h1]
      by_cases h2 : (validOf s.mappingTtl now mappings).length < 2
      · rw [if_pos h2]
        rw [resolveIfPresent_self, freshBoth, resolveIfPresent_tbl, resolveIfPresent_ttl]
        simp only [mget_mset_self, Option.getD_some]
        rw [validOf_idem]
        rw [bothClasses_short h2]
      · rw [if_neg h2]
        by_cases h3 : bothClasses (validOf s.mappingTtl now mappings) = true
        · rw [if_pos h3]
          rw [freshBoth]
          simp only [hasConflict, mget_mset_self, Option.isSome_some, mget_mset_self,
            Option.getD_some]
          rw [validOf_idem, h3]
        · rw [if_neg h3]
          rw [resolveIfPresent_self, freshBoth, resolveIfPresent_tbl, resolveIfPresent_ttl]
          simp only [mget_mset_self, Option.getD_some]
          rw [validOf_idem]
          simp only [Bool.not_eq_true] at h3
          rw [h3]

theorem checkForConflict_tbl_self (s : CDState) (ip : String) (now : Nat) :
    ∀ l, mget (checkForConflict s ip now).1.ipToDomains ip = some l →
      l = (mget s.ipToDomains ip).getD []
      ∨ l = validOf s.mappingTtl now ((mget s.ipToDomains ip).getD []) := by
  intro l hl
  rw [checkForConflict] at hl
  rcases hg : mget s.ipToDomains ip with _ | mappings <;> rw [hg] at hl
  · rw [resolveIfPresent_tbl, hg] at hl
    exact absurd hl (by simp)
  · simp only at hl
    by_cases h1 : mappings.length < 2
    · rw [if_pos h1, resolveIfPresent_tbl, hg] at hl
      left
      simpa using hl.symm
    · rw [if_neg h1] at hl
      by_cases h2 : (validOf s.mappingTtl now mappings).length < 2
      · rw [if_pos h2, resolveIfPresent_tbl] at hl
        rw [mget_mset_self] at hl
        right
        simpa using hl.symm
      · rw [if_neg h2] at hl
        by_cases h3 : bothClasses (validOf s.mappingTtl now mappings) = true
        · rw [if_pos h3] at hl
          rw [show ({ s with
                ipToDomains := mset s.ipToDomains ip (validOf s.mappingTtl now mappings)
                conflicts := (mset s.conflicts ip
                  (mkIpConflict ip (validOf s.mappingTtl now mappings) now)) }
              : CDState).ipToDomains
              = mset s.ipToDomains ip (validOf s.mappingTtl now mappings) from rfl,
            mget_mset_self] at hl
          right
          simpa using hl.symm
        · rw [if_neg h3, resolveIfPresent_tbl, mget_mset_self] at hl
          right
          simpa using hl.symm

theorem checkForConflict_events (s : CDState) (ip : String) (now : Nat) :
    ((∃ c, (checkForConflict s ip now).2.1 = [CDEvent.conflictDetected c])
        ↔ (hasConflict s ip = false ∧ hasConflict (checkForConflict s ip now).1 ip = true))
    ∧ ((checkForConflict s ip now).2.1 = [CDEvent.conflictResolved ip]
        ↔ (hasConflict s ip = true
            ∧ hasConflict (checkForConflict s ip now).1 ip = false)) := by
  have hresolve : ∀ s' : CDState, s'.conflicts = s.conflicts →
      (((∃ c, (resolveIfPresent s' ip).2.1 = [CDEvent.conflictDetected c])
          ↔ (hasConflict s ip = false ∧ hasConflict (resolveIfPresent s' ip).1 ip = true))
        ∧ ((resolveIfPresent s' ip).2.1 = [CDEvent.conflictResolved ip]
          ↔ (hasConflict s ip = true
              ∧ hasConflict (resolveIfPresent s' ip).1 ip = false))) := by
    intro s' hc
    have hpre : hasConflict s' ip = hasConflict s ip := by rw [hasConflict, hc]; rfl
    rw [resolveIfPresent_events, resolveIfPresent_self, hpre]
    by_cases h : hasConflict s ip = true
    · rw [h]
      simp
    · simp only [Bool.not_eq_true] at h
      rw [h]
      simp
  rw [checkForConflict]
  rcases hg : mget s.ipToDomains ip with _ | mappings
  · exact hresolve s rfl
  · simp only
    by_cases h1 : mappings.length < 2
    · rw [if_pos h1]
      exact hresolve s rfl
    · rw [if_neg h1]
      by_cases h2 : (validOf s.mappingTtl now mappings).length < 2
      · rw [if_pos h2]
        exact hresolve _ rfl
      · rw [if_neg h2]
        by_cases h3 : bothClasses (validOf s.mappingTtl now mappings) = true
        · rw [if_pos h3]
          have hpost : hasConflict
              ({ s with
                  ipToDomains := mset s.ipToDomains ip (validOf s.mappingTtl now mappings)
                  conflicts := (mset s.conflicts ip
                    (mkIpConflict ip (validOf s.mappingTtl now mappings) now)) }
                : CDState) ip = true := by
            simp [hasConflict, mget_mset_self]
          by_cases h : hasConflict s ip = true
          · rw [if_pos h]
            simp only [hpost]
            rw [h]
            simp
          · rw [if_neg h]
            simp only [Bool.not_eq_true] at h
            simp only [hpost]
            rw [h]
            simp
        · rw [if_neg h3]
          exact hresolve _ rfl

/-- The invariant at one ip: when every stored mapping for the ip is fresh at
`t`, the conflict flag agrees with the two-classes condition; an ip without a
table entry is never flagged. -/
def InvAt (s : CDState) (ip : String) (t : Nat) : Prop :=
  (∀ l, mget s.ipToDomains ip = some l →
      (∀ m ∈ l, freshAt s.mappingTtl t m = true) →
      hasConflict s ip = bothClasses l)
  ∧ (mget s.ipToDomains ip = none → hasConflict s ip = false)

def Inv (s : CDState) (t : Nat) : Prop := ∀ ip, InvAt s ip t

theorem InvAt_of_self_eq {s : CDState} {ip : String} {now : Nat}
    (h : hasConflict s ip = freshBoth s now ip) : InvAt s ip now := by
  constructor
  · intro l hl hfresh
    rw [h, freshBoth, hl, Option.getD_some, validOf_of_fresh hfresh]
  · intro hnone
    rw [h, freshBoth, hnone]
    simp [validOf, bothClasses_nil]

theorem InvAt_frame {s s' : CDState} {ip : String} {t : Nat}
    (htbl : mget s'.ipToDomains ip = mget s.ipToDomains ip)
    (hconf : mget s'.conflicts ip = mget s.conflicts ip)
    (httl : s'.mappingTtl = s.mappingTtl)
    (h : InvAt s ip t) : InvAt s' ip t := by
  have hhc : hasConflict s' ip = hasConflict s ip := by rw [hasConflict, hconf]; rfl
  constructor
  · intro l hl hfresh
    rw [htbl] at hl
    rw [httl] at hfresh
    rw [hhc]
    exact h.1 l hl hfresh
  · intro hnone
    rw [htbl] at hnone
    rw [hhc]
    exact h.2 hnone

theorem Inv_mono {s : CDState} {t now : Nat} (h : Inv s t) (hle : t ≤ now) :
    Inv s now := by
  intro ip
  obtain ⟨h1, h2⟩ := h ip
  exact ⟨fun l hl hfresh => h1 l hl (fun m hm => freshAt_mono hle (hfresh m hm)), h2⟩

/-- `checkForConflict` establishes the invariant at the checked ip and keeps
it everywhere else. -/
theorem Inv_checkForConflict {s : CDState} {ip : String} {now : Nat}
    (h : ∀ ip', ip' ≠ ip → InvAt s ip' now) :
    Inv (checkForConflict s ip now).1 now := by
  intro ip'
  by_cases hip : ip' = ip
  · subst hip
    exact InvAt_of_self_eq (checkForConflict_self s ip' now)
  · obtain ⟨htbl, hconf⟩ := checkForConflict_other s ip now ip' hip
    exact InvAt_frame htbl hconf (checkForConflict_ttl s ip now) (h ip' hip)

theorem recordMapping_ttl (s : CDState) (d ip : String) (tun : Bool) (now : Nat) :
    (recordMapping s d ip tun now).1.mappingTtl = s.mappingTtl := by
  rw [recordMapping, checkForConflict_ttl]

theorem recordMapping_self (s : CDState) (d ip : String) (tun : Bool) (now : Nat) :
    hasConflict (recordMapping s d ip tun now).1 ip
      = freshBoth (recordMapping s d ip tun now).1 now ip := by
  rw [recordMapping]
  exact checkForConflict_self _ ip now

theorem recordMapping_other (s : CDState) (d ip : String) (tun : Bool) (now : Nat)
    (ip' : String) (h : ip' ≠ ip) :
    mget (recordMapping s d ip tun now).1.ipToDomains ip' = mget s.ipToDomains ip'
    ∧ mget (recordMapping s d ip tun now).1.conflicts ip' = mget s.conflicts ip' := by
  rw [recordMapping]
  obtain ⟨htbl, hconf⟩ := checkForConflict_other _ ip now ip' h
  refine ⟨?_, ?_⟩
  · rw [htbl]
    exact mget_mset_ne _ _ _ _ (fun hh => h hh.symm)
  · rw [hconf]

theorem Inv_recordMapping {s : CDState} {t : Nat} (d ip : String) (tun : Bool)
    {now : Nat} (h : Inv s t) (hle : t ≤ now) :
    Inv (recordMapping s d ip tun now).1 now := by
  rw [recordMapping]
  refine Inv_checkForConflict (fun ip' hip => ?_)
  have hnow := Inv_mono h hle
  refine InvAt_frame (s := s) ?_ ?_ ?_ (hnow ip')
  · exact mget_mset_ne _ _ _ _ (fun hh => hip hh.symm)
  · rfl
  · rfl

/-! ### Map-key well-formedness (JS `Map`s hold unique keys) -/

def keysOf {β : Type} (m : List (String × β)) : List String := m.map Prod.fst

theorem mem_keysOf_mset {β : Type} (m : List (String × β)) (k : String) (v : β)
    (x : String) (hx : x ∈ keysOf (mset m k v)) : x ∈ keysOf m ∨ x = k := by
  rw [keysOf, List.mem_map] at hx
  obtain ⟨e, he, rfl⟩ := hx
  rcases mem_mset m k v e he with h | h
  · exact Or.inl (List.mem_map_of_mem _ h)
  · right
    rw [h]

theorem nodup_keysOf_mset {β : Type} (m : List (String × β)) (k : String) (v : β)
    (h : (keysOf m).Nodup) : (keysOf (mset m k v)).Nodup := by
  induction m with
  | nil => simp [mset, keysOf]
  | cons hd rest ih =>
    obtain ⟨k0, v0⟩ := hd
    rw [keysOf, List.map_cons, List.nodup_cons] at h
    by_cases hk : k0 = k
    · rw [mset, if_pos hk, keysOf, List.map_cons, List.nodup_cons]
      exact h
    · rw [mset, if_neg hk, keysOf, List.map_cons, List.nodup_cons]
      refine ⟨?_, ih h.2⟩
      intro hx
      rcases mem_keysOf_mset rest k v k0 hx with h1 | h1
      · exact h.1 h1
      · exact hk h1

theorem nodup_keysOf_mdel {β : Type} (m : List (String × β)) (k : String)
    (h : (keysOf m).Nodup) : (keysOf (mdel m k)).Nodup :=
  ((List.filter_sublist m).map Prod.fst).nodup h

theorem mget_eq_some_of_mem {β : Type} (m : List (String × β))
    (h : (keysOf m).Nodup) (e : String × β) (he : e ∈ m) : mget m e.1 = some e.2 := by
  induction m with
  | nil => simp at he
  | cons hd rest ih =>
    obtain ⟨k0, v0⟩ := hd
    rw [keysOf, List.map_cons, List.nodup_cons] at h
    rcases List.mem_cons.mp he with rfl | he'
    · simp [mget]
    · have hne : k0 ≠ e.1 := by
        intro hk
        apply h.1
        rw [hk]
        exact List.mem_map.mpr ⟨e, he', rfl⟩
      rw [mget, if_neg hne]
      exact ih h.2 he'

theorem mget_none_of_not_mem_keys {β : Type} (m : List (String × β)) (k : String)
    (h : k ∉ keysOf m) : mget m k = none := by
  induction m with
  | nil => rfl
  | cons hd rest ih =>
    obtain ⟨k0, v0⟩ := hd
    rw [keysOf, List.map_cons, List.mem_cons] at h
    push_neg at h
    rw [mget, if_neg (fun hh => h.1 hh.symm)]
    exact ih (by simpa [keysOf] using h.2)

/-- Well-formedness: the mapping table holds unique keys. -/
def WF (s : CDState) : Prop := (keysOf s.ipToDomains).Nodup

theorem checkForConflict_tbl_shape (s : CDState) (ip : String) (now : Nat) :
    (checkForConflict s ip now).1.ipToDomains = s.ipToDomains
    ∨ (checkForConflict s ip now).1.ipToDomains
        = mset s.ipToDomains ip
            (validOf s.mappingTtl now ((mget s.ipToDomains ip).getD [])) := by
  rw [checkForConflict]
  rcases hg : mget s.ipToDomains ip with _ | mappings
  · left
    exact resolveIfPresent_tbl s ip
  · simp only
    by_cases h1 : mappings.length < 2
    · rw [if_pos h1]
      left
      exact resolveIfPresent_tbl s ip
    · rw [if_neg h1]
      by_cases h2 : (validOf s.mappingTtl now mappings).length < 2
      · rw [if_pos h2]
        right
        rw [resolveIfPresent_tbl]
        rfl
      · rw [if_neg h2]
        by_cases h3 : bothClasses (validOf s.mappingTtl now mappings) = true
        · rw [if_pos h3]
          right
          rfl
        · rw [if_neg h3]
          right
          rw [resolveIfPresent_tbl]
          rfl

theorem WF_checkForConflict {s : CDState} (ip : String) (now : Nat) (h : WF s) :
    WF (checkForConflict s ip now).1 := by
  rcases checkForConflict_tbl_shape s ip now with hs | hs
  · rw [WF, hs]
    exact h
  · rw [WF, hs]
    exact nodup_keysOf_mset _ _ _ h

theorem WF_recordMapping {s : CDState} (d ip : String) (tun : Bool) (now : Nat)
    (h : WF s) : WF (recordMapping s d ip tun now).1 := by
  rw [recordMapping]
  exact WF_checkForConflict ip now (nodup_keysOf_mset _ _ _ h)

theorem all_of_filter_length_eq {α : Type} (p : α → Bool) :
    ∀ (l : List α), (l.filter p).length = l.length → ∀ a ∈ l, p a = true := by
  intro l
  induction l with
  | nil =>
    intro _ a ha
    simp at ha
  | cons x l' ih =>
    intro h a ha
    rw [List.filter_cons] at h
    by_cases hx : p x = true
    · rw [if_pos hx, List.length_cons, List.length_cons] at h
      rcases List.mem_cons.mp ha with rfl | ha'
      · exact hx
      · exact ih (by omega) a ha'
    · exfalso
      rw [if_neg hx, List.length_cons] at h
      have := List.length_filter_le p l'
      omega

/-! ### The cleanup loop re-establishes the invariant at every ip -/

theorem cleanupStaleStep_ttl (now : Nat) (A : CDState × List CDEvent)
    (e : String × List DomainIpMapping) :
    (cleanupStaleStep now A e).1.mappingTtl = A.1.mappingTtl := by
  rw [cleanupStaleStep]
  split
  · split <;> rfl
  · split
    · exact checkForConflict_ttl _ e.1 now
    · rfl

theorem cleanupStaleStep_other (now : Nat) (A : CDState × List CDEvent)
    (e : String × List DomainIpMapping) (ip' : String) (h : ip' ≠ e.1) :
    mget (cleanupStaleStep now A e).1.ipToDomains ip' = mget A.1.ipToDomains ip'
    ∧ mget (cleanupStaleStep now A e).1.conflicts ip' = mget A.1.conflicts ip' := by
  have hne : e.1 ≠ ip' := fun hh => h hh.symm
  rw [cleanupStaleStep]
  split
  · split
    · exact ⟨mget_mdel_ne _ _ _ hne, mget_mdel_ne _ _ _ hne⟩
    · exact ⟨mget_mdel_ne _ _ _ hne, rfl⟩
  · split
    · obtain ⟨h1, h2⟩ := checkForConflict_other _ e.1 now ip' h
      exact ⟨h1.trans (mget_mset_ne _ _ _ _ hne), h2.trans rfl⟩
    · exact ⟨rfl, rfl⟩

theorem Inv_cleanupStaleStep {now : Nat} {A : CDState × List CDEvent}
    (e : String × List DomainIpMapping) (h : Inv A.1 now) :
    Inv (cleanupStaleStep now A e).1 now := by
  rw [cleanupStaleStep]
  split
  · split
    · intro ip
      by_cases hip : ip = e.1
      · subst hip
        constructor
        · intro l hl _
          exact absurd hl (by simp [mget_mdel_self])
        · intro _
          simp [hasConflict, mget_mdel_self]
      · exact InvAt_frame (s := A.1)
          (mget_mdel_ne _ _ _ (fun hh => hip hh.symm))
          (mget_mdel_ne _ _ _ (fun hh => hip hh.symm)) rfl (h ip)
    · rename_i hpre
      intro ip
      by_cases hip : ip = e.1
      · subst hip
        constructor
        · intro l hl _
          exact absurd hl (by simp [mget_mdel_self])
        · intro _
          have hh : hasConflict A.1 e.1 = false := by simpa using hpre
          exact hh
      · exact InvAt_frame (s := A.1)
          (mget_mdel_ne _ _ _ (fun hh => hip hh.symm)) rfl rfl (h ip)
  · split
    · refine Inv_checkForConflict (fun ip' hip => ?_)
      refine InvAt_frame (s := A.1) ?_ rfl rfl (h ip')
      exact mget_mset_ne _ _ _ _ (fun hh => hip hh.symm)
    · exact h

theorem WF_cleanupStaleStep {now : Nat} {A : CDState × List CDEvent}
    (e : String × List DomainIpMapping) (h : WF A.1) :
    WF (cleanupStaleStep now A e).1 := by
  rw [cleanupStaleStep]
  split
  · split
    · exact nodup_keysOf_mdel _ _ h
    · exact nodup_keysOf_mdel _ _ h
  · split
    · exact WF_checkForConflict e.1 now (nodup_keysOf_mset _ _ _ h)
    · exact h

theorem cleanupFold_inv (now : Nat) :
    ∀ (L : List (String × List DomainIpMapping)) (A : CDState × List CDEvent),
      Inv A.1 now → Inv (L.foldl (cleanupStaleStep now) A).1 now := by
  intro L
  induction L with
  | nil =>
    intro A h
    exact h
  | cons e L' ih =>
    intro A h
    rw [List.foldl_cons]
    exact ih _ (Inv_cleanupStaleStep e h)

theorem cleanupFold_wf (now : Nat) :
    ∀ (L : List (String × List DomainIpMapping)) (A : CDState × List CDEvent),
      WF A.1 → WF (L.foldl (cleanupStaleStep now) A).1 := by
  intro L
  induction L with
  | nil =>
    intro A h
    exact h
  | cons e L' ih =>
    intro A h
    rw [List.foldl_cons]
    exact ih _ (WF_cleanupStaleStep e h)

theorem cleanupFold_ttl (now : Nat) :
    ∀ (L : List (String × List DomainIpMapping)) (A : CDState × List CDEvent),
      (L.foldl (cleanupStaleStep now) A).1.mappingTtl = A.1.mappingTtl := by
  intro L
  induction L with
  | nil =>
    intro A
    rfl
  | cons e L' ih =>
    intro A
    rw [List.foldl_cons, ih, cleanupStaleStep_ttl]

/-- All mappings stored for `ip` are fresh at `now`. -/
def GoodTbl (tbl : List (String × List DomainIpMapping)) (ttl now : Nat)
    (ip : String) : Prop :=
  ∀ l, mget tbl ip = some l → ∀ m ∈ l, freshAt ttl now m = true

theorem cleanupStaleStep_good_self (now : Nat) (A : CDState × List CDEvent)
    (e : String × List DomainIpMapping)
    (hA : mget A.1.ipToDomains e.1 = some e.2) :
    GoodTbl (cleanupStaleStep now A e).1.ipToDomains A.1.mappingTtl now e.1 := by
  rw [cleanupStaleStep]
  split
  · split
    · intro l hl
      exact absurd hl (by simp [mget_mdel_self])
    · intro l hl
      exact absurd hl (by simp [mget_mdel_self])
  · split
    · intro l hl m hm
      rcases checkForConflict_tbl_self _ e.1 now l hl with h | h <;>
        simp only [mget_mset_self, Option.getD_some, validOf_idem] at h
      · rw [h] at hm
        exact validOf_all_fresh _ _ _ m hm
      · rw [h] at hm
        exact validOf_all_fresh _ _ _ m hm
    · rename_i hlen
      intro l hl m hm
      rw [hA] at hl
      obtain rfl : e.2 = l := by simpa using hl
      have hlen' : (validOf A.1.mappingTtl now e.2).length = e.2.length := by
        simpa using hlen
      exact all_of_filter_length_eq _ e.2 hlen' m hm

theorem cleanupStaleStep_good_frame (now : Nat) (A : CDState × List CDEvent)
    (e : String × List DomainIpMapping) (ip : String) (h : ip ≠ e.1) (ttl : Nat)
    (hg : GoodTbl A.1.ipToDomains ttl now ip) :
    GoodTbl (cleanupStaleStep now A e).1.ipToDomains ttl now ip := by
  intro l hl
  rw [(cleanupStaleStep_other now A e ip h).1] at hl
  exact hg l hl

theorem cleanupFold_good (now ttl0 : Nat) :
    ∀ (L : List (String × List DomainIpMapping)) (A : CDState × List CDEvent),
      A.1.mappingTtl = ttl0 →
      (∀ e ∈ L, mget A.1.ipToDomains e.1 = some e.2) →
      (keysOf L).Nodup →
      (∀ ip, ip ∉ keysOf L → GoodTbl A.1.ipToDomains ttl0 now ip) →
      ∀ ip, GoodTbl (L.foldl (cleanupStaleStep now) A).1.ipToDomains ttl0 now ip := by
  intro L
  induction L with
  | nil =>
    intro A _ _ _ h3 ip
    exact h3 ip (by simp [keysOf])
  | cons e L' ih =>
    intro A h0 h1 h2 h3 ip
    rw [List.foldl_cons]
    rw [keysOf, List.map_cons, List.nodup_cons] at h2
    refine ih (cleanupStaleStep now A e) ?_ ?_ h2.2 ?_ ip
    · rw [cleanupStaleStep_ttl, h0]
    · intro e' he'
      have hne : e'.1 ≠ e.1 := by
        intro hh
        exact h2.1 (hh ▸ List.mem_map.mpr ⟨e', he', rfl⟩)
      rw [(cleanupStaleStep_other now A e e'.1 hne).1]
      exact h1 e' (List.mem_cons_of_mem _ he')
    · intro ip' hip'
      by_cases hc : ip' = e.1
      · subst hc
        have hgs := cleanupStaleStep_good_self now A e (h1 e (List.mem_cons_self e L'))
        rw [h0] at hgs
        exact hgs
      · refine cleanupStaleStep_good_frame now A e ip' hc ttl0 (h3 ip' ?_)
        intro hmem
        rw [keysOf, List.map_cons, List.mem_cons] at hmem
        rcases hmem with hh | hh
        · exact hc hh
        · exact hip' hh

/-- After `cleanupStale`, the conflict flag agrees with the fresh-both-classes
condition at every ip (the key fact the claim asserts of arbitrary states). -/
theorem cleanupStale_agrees {s : CDState} {t now : Nat} (hwf : WF s) (h : Inv s t)
    (hle : t ≤ now) :
    ∀ ip, hasConflict (cleanupStale s now).1 ip
      = freshBoth (cleanupStale s now).1 now ip := by
  intro ip
  have hF : Inv (cleanupFirstLoop s now).1 now :=
    cleanupFold_inv now s.ipToDomains (s, []) (Inv_mono h hle)
  have httl : (cleanupFirstLoop s now).1.mappingTtl = s.mappingTtl :=
    cleanupFold_ttl now s.ipToDomains (s, [])
  have hgood : ∀ ip',
      GoodTbl (cleanupFirstLoop s now).1.ipToDomains s.mappingTtl now ip' :=
    cleanupFold_good now s.mappingTtl s.ipToDomains (s, []) rfl
      (fun e he => mget_eq_some_of_mem _ hwf e he) hwf
      (fun ip' hip' l hl =>
        absurd hl (by rw [mget_none_of_not_mem_keys _ _ hip']; simp))
  show hasConflict (cleanupFirstLoop s now).1 ip
    = freshBoth (cleanupFirstLoop s now).1 now ip
  rcases hm : mget (cleanupFirstLoop s now).1.ipToDomains ip with _ | l
  · rw [(hF ip).2 hm, freshBoth, hm]
    simp [validOf, bothClasses_nil]
  · have hfresh : ∀ m ∈ l,
        freshAt (cleanupFirstLoop s now).1.mappingTtl now m = true := by
      rw [httl]
      exact hgood ip l hm
    rw [(hF ip).1 l hm hfresh, freshBoth, hm, Option.getD_some,
      validOf_of_fresh hfresh]

theorem Inv_cleanupStale_state {s : CDState} {now : Nat} (h : Inv s now) :
    Inv (cleanupStale s now).1 now := by
  have hF : Inv (cleanupFirstLoop s now).1 now :=
    cleanupFold_inv now s.ipToDomains (s, []) h
  intro ip
  exact InvAt_frame (s := (cleanupFirstLoop s now).1) rfl rfl rfl (hF ip)

theorem WF_cleanupStale {s : CDState} (now : Nat) (h : WF s) :
    WF (cleanupStale s now).1 :=
  cleanupFold_wf now s.ipToDomains (s, []) h

/-! ### `removeDomain` preserves the invariant -/

theorem Inv_removeDomainStep {nd : String} {now : Nat} {A : CDState × List CDEvent}
    (ip : String) (h : Inv A.1 now) : Inv (removeDomainStep nd now A ip).1 now := by
  rw [removeDomainStep]
  split
  · split
    · intro ip'
      by_cases hip : ip' = ip
      · subst hip
        constructor
        · intro l hl _
          exact absurd hl (by simp [mget_mdel_self])
        · intro _
          simp [hasConflict, mget_mdel_self]
      · exact InvAt_frame (s := A.1)
          (mget_mdel_ne _ _ _ (fun hh => hip hh.symm))
          (mget_mdel_ne _ _ _ (fun hh => hip hh.symm)) rfl (h ip')
    · rename_i hpre
      intro ip'
      by_cases hip : ip' = ip
      · subst hip
        constructor
        · intro l hl _
          exact absurd hl (by simp [mget_mdel_self])
        · intro _
          have hh : hasConflict A.1 ip' = false := by simpa using hpre
          exact hh
      · exact InvAt_frame (s := A.1)
          (mget_mdel_ne _ _ _ (fun hh => hip hh.symm)) rfl rfl (h ip')
  · refine Inv_checkForConflict (fun ip' hip => ?_)
    refine InvAt_frame (s := A.1) ?_ rfl rfl (h ip')
    exact mget_mset_ne _ _ _ _ (fun hh => hip hh.symm)

theorem WF_removeDomainStep {nd : String} {now : Nat} {A : CDState × List CDEvent}
    (ip : String) (h : WF A.1) : WF (removeDomainStep nd now A ip).1 := by
  rw [removeDomainStep]
  split
  · split
    · exact nodup_keysOf_mdel _ _ h
    · exact nodup_keysOf_mdel _ _ h
  · exact WF_checkForConflict ip now (nodup_keysOf_mset _ _ _ h)

theorem removeFold_inv (nd : String) (now : Nat) :
    ∀ (L : List String) (A : CDState × List CDEvent),
      Inv A.1 now → Inv (L.foldl (removeDomainStep nd now) A).1 now := by
  intro L
  induction L with
  | nil =>
    intro A h
    exact h
  | cons ip L' ih =>
    intro A h
    rw [List.foldl_cons]
    exact ih _ (Inv_removeDomainStep ip h)

theorem removeFold_wf (nd : String) (now : Nat) :
    ∀ (L : List String) (A : CDState × List CDEvent),
      WF A.1 → WF (L.foldl (removeDomainStep nd now) A).1 := by
  intro L
  induction L with
  | nil =>
    intro A h
    exact h
  | cons ip L' ih =>
    intro A h
    rw [List.foldl_cons]
    exact ih _ (WF_removeDomainStep ip h)

theorem Inv_removeDomain {s : CDState} {now : Nat} (d : String) (h : Inv s now) :
    Inv (removeDomain s d now).1 now := by
  rw [removeDomain]
  rcases hg : mget s.domainToIps (lowerStr d) with _ | ips
  · exact h
  · simp only
    have hF := removeFold_inv (lowerStr d) now ips (s, []) h
    intro ip
    exact InvAt_frame
      (s := (ips.foldl (removeDomainStep (lowerStr d) now) (s, [])).1)
      rfl rfl rfl (hF ip)

theorem WF_removeDomain {s : CDState} {now : Nat} (d : String) (h : WF s) :
    WF (removeDomain s d now).1 := by
  rw [removeDomain]
  rcases hg : mget s.domainToIps (lowerStr d) with _ | ips
  · exact h
  · simp only
    exact removeFold_wf (lowerStr d) now ips (s, []) h

/-! ### `recordMappings` preserves the invariant -/

theorem recordMappings_state (s : CDState) (d : String) (ips : List String)
    (tun : Bool) (now : Nat) :
    (recordMappings s d ips tun now).1
      = ips.foldl (fun u ip => (recordMapping u d ip tun now).1) s := by
  rw [recordMappings]
  suffices h : ∀ (l : List String) (acc : CDState × List CDEvent × List IpConflict),
      (l.foldl
        (fun acc ip =>
          ((recordMapping acc.1 d ip tun now).1,
           acc.2.1 ++ (recordMapping acc.1 d ip tun now).2.1,
           acc.2.2 ++ (recordMapping acc.1 d ip tun now).2.2.toList)) acc).1
      = l.foldl (fun u ip => (recordMapping u d ip tun now).1) acc.1 by
    exact h ips (s, [], [])
  intro l
  induction l with
  | nil =>
    intro acc
    rfl
  | cons x l' ih =>
    intro acc
    rw [List.foldl_cons, List.foldl_cons, ih]

theorem Inv_recordMappings {s : CDState} {t : Nat} (d : String) (ips : List String)
    (tun : Bool) {now : Nat} (h : Inv s t) (hle : t ≤ now) :
    Inv (recordMappings s d ips tun now).1 now := by
  rw [recordMappings_state]
  have key : ∀ (l : List String) (u : CDState), Inv u now →
      Inv (l.foldl (fun u ip => (recordMapping u d ip tun now).1) u) now := by
    intro l
    induction l with
    | nil =>
      intro u hu
      exact hu
    | cons x l' ih =>
      intro u hu
      rw [List.foldl_cons]
      exact ih _ (Inv_recordMapping d x tun hu le_rfl)
  exact key ips s (Inv_mono h hle)

theorem WF_recordMappings {s : CDState} (d : String) (ips : List String)
    (tun : Bool) (now : Nat) (h : WF s) :
    WF (recordMappings s d ips tun now).1 := by
  rw [recordMappings_state]
  have key : ∀ (l : List String) (u : CDState), WF u →
      WF (l.foldl (fun u ip => (recordMapping u d ip tun now).1) u) := by
    intro l
    induction l with
    | nil =>
      intro u hu
      exact hu
    | cons x l' ih =>
      intro u hu
      rw [List.foldl_cons]
      exact ih _ (WF_recordMapping d x tun now hu)
  exact key ips s h

/-! ### Reachable conflict-detector states -/

/-- States reachable through the detector's public operations, with a monotone
clock: `CDReach s t` means `s` arises from some sequence of operations whose
last reading of the clock was at most `t`. -/
inductive CDReach : CDState → Nat → Prop where
  | init (ttlMs t : Nat) : CDReach (mkConflictDetector ttlMs) t
  | tick {s : CDState} {t : Nat} (t' : Nat) (h : CDReach s t) (hle : t ≤ t') :
      CDReach s t'
  | record {s : CDState} {t : Nat} (d ip : String) (tun : Bool) (h : CDReach s t) :
      CDReach (recordMapping s d ip tun t).1 t
  | recordBatch {s : CDState} {t : Nat} (d : String) (ips : List String)
      (tun : Bool) (h : CDReach s t) : CDReach (recordMappings s d ips tun t).1 t
  | cleanupOp {s : CDState} {t : Nat} (h : CDReach s t) :
      CDReach (cleanupStale s t).1 t
  | removeOp {s : CDState} {t : Nat} (d : String) (h : CDReach s t) :
      CDReach (removeDomain s d t).1 t
  | clearOp {s : CDState} {t : Nat} (h : CDReach s t) : CDReach (clearCD s).1 t

theorem Inv_clearCD (s : CDState) (t : Nat) : Inv (clearCD s).1 t := by
  intro ip
  constructor
  · intro l hl _
    exact absurd hl (by simp [clearCD, mget])
  · intro _
    rfl

theorem CDReach_sound {s : CDState} {t : Nat} (h : CDReach s t) :
    WF s ∧ Inv s t := by
  induction h with
  | init ttlMs t =>
    refine ⟨List.nodup_nil, fun ip => ⟨?_, fun _ => rfl⟩⟩
    intro l hl _
    exact absurd hl (by simp [mkConflictDetector, mget])
  | tick t' h hle ih => exact ⟨ih.1, Inv_mono ih.2 hle⟩
  | record d ip tun h ih =>
    exact ⟨WF_recordMapping d ip tun _ ih.1, Inv_recordMapping d ip tun ih.2 le_rfl⟩
  | recordBatch d ips tun h ih =>
    exact ⟨WF_recordMappings d ips tun _ ih.1,
      Inv_recordMappings d ips tun ih.2 le_rfl⟩
  | cleanupOp h ih => exact ⟨WF_cleanupStale _ ih.1, Inv_cleanupStale_state ih.2⟩
  | removeOp d h ih => exact ⟨WF_removeDomain d ih.1, Inv_removeDomain d ih.2⟩
  | clearOp h ih => exact ⟨List.nodup_nil, Inv_clearCD _ _⟩

/-! ### Per-recorded-ip agreement for `recordMappings` -/

theorem recordFold_frame (d : String) (tun : Bool) (now : Nat) (ip : String) :
    ∀ (l : List String), ip ∉ l → ∀ (u : CDState),
      mget (l.foldl (fun u x => (recordMapping u d x tun now).1) u).ipToDomains ip
        = mget u.ipToDomains ip
      ∧ mget (l.foldl (fun u x => (recordMapping u d x tun now).1) u).conflicts ip
        = mget u.conflicts ip
      ∧ (l.foldl (fun u x => (recordMapping u d x tun now).1) u).mappingTtl
        = u.mappingTtl := by
  intro l
  induction l with
  | nil =>
    intro _ u
    exact ⟨rfl, rfl, rfl⟩
  | cons x l' ih =>
    intro hnot u
    rw [List.foldl_cons]
    have hx : ip ≠ x := fun hh => hnot (hh ▸ List.mem_cons_self x l')
    have hl' : ip ∉ l' := fun hh => hnot (List.mem_cons_of_mem _ hh)
    obtain ⟨f1, f2, f3⟩ := ih hl' ((recordMapping u d x tun now).1)
    obtain ⟨g1, g2⟩ := recordMapping_other u d x tun now ip hx
    exact ⟨f1.trans g1, f2.trans g2, f3.trans (recordMapping_ttl u d x tun now)⟩

theorem recordStateFold_self (d : String) (tun : Bool) (now : Nat) (ip : String) :
    ∀ (l : List String), ip ∈ l → ∀ (u : CDState),
      hasConflict (l.foldl (fun u x => (recordMapping u d x tun now).1) u) ip
        = freshBoth (l.foldl (fun u x => (recordMapping u d x tun now).1) u) now ip := by
  intro l
  induction l with
  | nil =>
    intro h
    simp at h
  | cons x l' ih =>
    intro hip u
    rw [List.foldl_cons]
    by_cases hmem : ip ∈ l'
    · exact ih hmem _
    · have hx : ip = x := by
        rcases List.mem_cons.mp hip with h | h
        · exact h
        · exact absurd h hmem
      subst hx
      obtain ⟨f1, f2, f3⟩ := recordFold_frame d tun now ip l' hmem
        ((recordMapping u d ip tun now).1)
      have base := recordMapping_self u d ip tun now
      rw [hasConflict, freshBoth] at base ⊢
      rw [f1, f2, f3]
      exact base

theorem recordMappings_self (s : CDState) (d : String) (ips : List String)
    (tun : Bool) (now : Nat) (ip : String) (hip : ip ∈ ips) :
    hasConflict (recordMappings s d ips tun now).1 ip
      = freshBoth (recordMappings s d ips tun now).1 now ip := by
  rw [recordMappings_state]
  exact recordStateFold_self d tun now ip ips hip s

/-- The state after: record a.test→198.51.100.7 (tunnel) and
b.test→198.51.100.7 (direct) at time 0, then record c.test→203.0.113.5
(tunnel) at time 300000 (= the default TTL, so the first ip's mappings are
stale by then). -/
def cdCounterState : CDState :=
  (recordMapping
    (recordMapping
      (recordMapping (mkConflictDetector 0) "a.test" "198.51.100.7" true 0).1
      "b.test" "198.51.100.7" false 0).1
    "c.test" "203.0.113.5" true 300000).1

/-- C2 counterexample: `cdCounterState` is reachable by detector operations
under a monotone clock, yet at time 300000 the ip 198.51.100.7 is still
flagged as conflicting although none of its stored mappings is fresh any
more - recording a mapping for a *different* ip does not recompute the stale
ip's conflict, so "hasConflict(ip) iff fresh mappings of ip span both
classes" does not hold after arbitrary operation sequences. -/
theorem hasConflict_without_fresh_both :
    CDReach cdCounterState 300000
    ∧ hasConflict cdCounterState "198.51.100.7" = true
    ∧ freshBoth cdCounterState 300000 "198.51.100.7" = false :=
  ⟨CDReach.record "c.test" "203.0.113.5" true
      (CDReach.tick 300000
        (CDReach.record "b.test" "198.51.100.7" false
          (CDReach.record "a.test" "198.51.100.7" true (CDReach.init 0 0)))
        (Nat.zero_le _)),
   rfl, rfl⟩

/-- C2 (amended): (1) after `recordMapping`, the conflict flag at the recorded
ip equals the fresh-both-classes condition; (2) the same holds at every ip of
a `recordMappings` batch; (3) `recordMapping` emits `conflict-detected` iff
the ip was not flagged before and is after, and `conflict-resolved` iff it was
flagged before and is not after; (4) after `cleanupStale` on any reachable
state (clock monotone), the flag agrees with the fresh-both condition at
EVERY ip; (5) `clear` unflags every ip and emits `conflict-resolved` for each
previously flagged ip. Between operations that touch an ip, a stale conflict
can persist (see the counterexample), which is where the claim's "after any
sequence ... if and only if" overstates the code. -/
theorem conflictDetector_spec :
    (∀ (s : CDState) (d ip : String) (tun : Bool) (now : Nat),
        hasConflict (recordMapping s d ip tun now).1 ip
          = freshBoth (recordMapping s d ip tun now).1 now ip)
    ∧ (∀ (s : CDState) (d : String) (ips : List String) (tun : Bool) (now : Nat)
          (ip : String), ip ∈ ips →
        hasConflict (recordMappings s d ips tun now).1 ip
          = freshBoth (recordMappings s d ips tun now).1 now ip)
    ∧ (∀ (s : CDState) (d ip : String) (tun : Bool) (now : Nat),
        ((∃ c, (recordMapping s d ip tun now).2.1 = [CDEvent.conflictDetected c])
            ↔ (hasConflict s ip = false
                ∧ hasConflict (recordMapping s d ip tun now).1 ip = true))
        ∧ ((recordMapping s d ip tun now).2.1 = [CDEvent.conflictResolved ip]
            ↔ (hasConflict s ip = true
                ∧ hasConflict (recordMapping s d ip tun now).1 ip = false)))
    ∧ (∀ (s : CDState) (t now : Nat), CDReach s t → t ≤ now →
        ∀ ip, hasConflict (cleanupStale s now).1 ip
          = freshBoth (cleanupStale s now).1 now ip)
    ∧ (∀ (s : CDState) (ip : String), hasConflict (clearCD s).1 ip = false)
    ∧ (∀ s : CDState,
        (clearCD s).2 = s.conflicts.map (fun e => CDEvent.conflictResolved e.1)) := by
  refine ⟨?_, ?_, ?_, ?_, ?_, ?_⟩
  · intro s d ip tun now
    exact recordMapping_self s d ip tun now
  · intro s d ips tun now ip hip
    exact recordMappings_self s d ips tun now ip hip
  · intro s d ip tun now
    exact checkForConflict_events _ ip now
  · intro s t now hreach hle ip
    obtain ⟨hwf, hinv⟩ := CDReach_sound hreach
    exact cleanupStale_agrees hwf hinv hle ip
  · intro s ip
    rfl
  · intro s
    rfl

/-- Witness for `conflictDetector_spec`: its conditional clauses applied at
concrete inputs. -/
theorem conflictDetector_spec_witness :
    ("9.9.9.9" ∈ ["9.9.9.9"] ∧ (0:Nat) ≤ 5)
    ∧ hasConflict
        (recordMappings (mkConflictDetector 0) "x.test" ["9.9.9.9"] true 3).1
        "9.9.9.9"
      = freshBoth
          (recordMappings (mkConflictDetector 0) "x.test" ["9.9.9.9"] true 3).1
          3 "9.9.9.9"
    ∧ hasConflict (cleanupStale (mkConflictDetector 0) 5).1 "1.2.3.4"
      = freshBoth (cleanupStale (mkConflictDetector 0) 5).1 5 "1.2.3.4" :=
  ⟨⟨List.mem_cons_self _ _, Nat.zero_le _⟩,
   conflictDetector_spec.2.1 (mkConflictDetector 0) "x.test" ["9.9.9.9"] true 3
     "9.9.9.9" (List.mem_cons_self _ _),
   conflictDetector_spec.2.2.2.1 (mkConflictDetector 0) 0 5 (CDReach.init 0 0)
     (Nat.zero_le _) "1.2.3.4"⟩

end WgTunnel
